import Mathlib

/-!
# MediaAnalyzer — formal model of the metadata pipeline

Shallow embedding of the core of the MediaAnalyzer repository:
`src/analyze.js` (probe normalization), `src/compare.js` (comparator),
`src/dashboard.js` (in-memory aggregation), `src/db.js` (analysis store,
store-backed aggregation and search) and the search route of the server.

Conventions of the embedding:
* JS numbers that occur in the pipeline are modelled as `ℚ` (all values the
  pipeline produces are finite; `NaN`/`Infinity` never reach a stored record).
* A JS value that is `null` is modelled as `Option.none`.  For the analysis
  record the fields that can be `null` or missing are `Option`-typed; the two
  states are observationally identical everywhere the code reads them except
  where noted in comments.
* Raw ffprobe JSON values that the code feeds through `Number(...)` are
  modelled by `JV` (number, string or null) together with a decimal parser
  mirroring the coercion on the values that actually occur.
-/

namespace MediaAnalyzer

/-- JS `String.prototype.trim` on a char list: strip leading and trailing
whitespace. -/
def trimChars (l : List Char) : List Char :=
  ((l.dropWhile Char.isWhitespace).reverse.dropWhile Char.isWhitespace).reverse

/-- JS `s.trim()`. -/
def jsTrim (s : String) : String :=
  String.mk (trimChars s.data)

/-- JS `s.toLowerCase()` (ASCII case folding, as the code applies it to
extensions, names and paths). -/
def jsToLower (s : String) : String :=
  String.mk (s.data.map Char.toLower)

/-- Literal string-prefix test (used for the scope restriction; the SQL
`LIKE` prefix patterns are escaped to literal semantics by
`escapeLikePrefix`). -/
def strPrefix (pre s : String) : Bool :=
  pre.data.isPrefixOf s.data

/-- Code-point lexicographic order on char lists; both `localeCompare` in the
JS sort comparators and the SQL `ORDER BY` text collation are modelled by
this order. -/
def charLeB : List Char → List Char → Bool
  | [], _ => true
  | _ :: _, [] => false
  | a :: as, b :: bs => if a = b then charLeB as bs else decide (a.toNat < b.toNat)

/-- Code-point order on strings. -/
def strLeB (a b : String) : Bool :=
  charLeB a.data b.data

/-- Characters of a path after the last `/` — `path.posix.basename`
(inputs here never have a trailing slash, `normalizeRel` strips it). -/
def basenameChars (l : List Char) : List Char :=
  (l.reverse.takeWhile (fun c => c ≠ '/')).reverse

/-- `path.posix.basename`. -/
def basename (p : String) : String :=
  String.mk (basenameChars p.data)

/-- `path.posix.extname` on the basename's characters: the suffix from the
last `.`, empty when there is no dot or the only dot starts the name. -/
def extChars (b : List Char) : List Char :=
  let r := b.reverse
  let pre := r.takeWhile (fun c => c ≠ '.')
  if pre.length = r.length then []
  else if pre.length + 1 = r.length then []
  else '.' :: pre.reverse

/-- `path.posix.extname (relPath ?? '')` as used by the kind guesser. -/
def extname (p : String) : String :=
  String.mk (extChars (basenameChars p.data))

/-- `normalizeRel` from `src/fsBrowse.js`: backslashes to slashes, strip
leading and trailing slashes. -/
def normalizeRel (relPath : String) : String :=
  let cleaned := relPath.data.map (fun c => if c = '\\' then '/' else c)
  let noLead := cleaned.dropWhile (fun c => c = '/')
  String.mk ((noLead.reverse.dropWhile (fun c => c = '/')).reverse)

/-- `IMAGE_EXT` from `src/analyze.js`. -/
def IMAGE_EXT : List String :=
  [".jpg", ".jpeg", ".png", ".gif", ".webp", ".bmp", ".tif", ".tiff"]

/-- `VIDEO_EXT` from `src/analyze.js`. -/
def VIDEO_EXT : List String :=
  [".mp4", ".mkv", ".mov", ".avi", ".webm", ".m4v", ".mpg", ".mpeg", ".ts"]

/-- `AUDIO_EXT` from `src/analyze.js`. -/
def AUDIO_EXT : List String :=
  [".mp3", ".wav", ".aac", ".flac", ".ogg", ".m4a", ".opus"]

/-- `guessKindFromExtension` from `src/analyze.js`. -/
def guessKindFromExtension (relPath : String) : String :=
  let ext := jsToLower (extname relPath)
  if IMAGE_EXT.any (fun e => e = ext) then "image"
  else if VIDEO_EXT.any (fun e => e = ext) then "video"
  else if AUDIO_EXT.any (fun e => e = ext) then "audio"
  else "unknown"

/-- A loosely-typed JSON scalar as ffprobe reports it: a number, a string, or
`null`. -/
inductive JV : Type where
  | num (q : ℚ)
  | str (s : String)
  | nullv
deriving DecidableEq, Repr

/-- Value of a digit string read most-significant first. -/
def decimalVal (l : List Char) : Option ℕ :=
  l.foldl (fun acc c =>
    match acc with
    | none => none
    | some v => if c.isDigit then some (v * 10 + (c.toNat - '0'.toNat)) else none)
    (some 0)

/-- JS `Number(string)` restricted to the decimal forms that occur in ffprobe
output: optional sign, digits with an optional fraction; the empty or
all-whitespace string coerces to `0`; anything else is `NaN` (`none`). -/
def parseNumber (s : String) : Option ℚ :=
  let t := trimChars s.data
  if t = [] then some 0
  else
    let (neg, cs) :=
      match t with
      | '-' :: rest => (true, rest)
      | '+' :: rest => (false, rest)
      | _ => (false, t)
    let intPart := cs.takeWhile Char.isDigit
    let rest := cs.drop intPart.length
    let build (ip : List Char) (fp : List Char) : Option ℚ :=
      if ip = [] ∧ fp = [] then none
      else
        match decimalVal ip, decimalVal fp with
        | some i, some f =>
          let v : ℚ := (i : ℚ) + (f : ℚ) / ((10 : ℚ) ^ fp.length)
          some (if neg then -v else v)
        | _, _ => none
    match rest with
    | [] => if intPart = [] then none else build intPart []
    | '.' :: frac => if frac.all Char.isDigit then build intPart frac else none
    | _ => none

/-- JS `Number(x)` for a `JV`. -/
def jvToNumber : JV → Option ℚ
  | .num q => some q
  | .str s => parseNumber s
  | .nullv => none

/-- `toNumberMaybe` from `src/analyze.js`: `null`/`undefined` become `null`,
otherwise `Number(x)` kept only when finite. -/
def toNumberMaybe : Option JV → Option ℚ
  | none => none
  | some v => jvToNumber v

/-! ## The Analysis Record and the probe data model -/

/-- Container-level fields of the ffprobe `format` object the normalizer
reads. -/
structure FfFormat : Type where
  format_name : Option String
  format_long_name : Option String
  duration : Option JV
  bit_rate : Option JV
deriving DecidableEq, Repr

/-- Per-stream fields of an ffprobe stream the normalizer reads. -/
structure FfStream : Type where
  codec_type : Option String
  codec_name : Option String
  codec_long_name : Option String
  width : Option JV
  height : Option JV
  pix_fmt : Option String
  r_frame_rate : Option String
  sample_rate : Option JV
  channels : Option JV
deriving DecidableEq, Repr

/-- Parsed ffprobe JSON: the `format` object and the `streams` array, either
of which may be missing. -/
structure FfJson : Type where
  format : Option FfFormat
  streams : Option (List FfStream)
deriving DecidableEq, Repr

/-- The `container` sub-object of an Analysis Record. -/
structure ContainerInfo : Type where
  formatName : Option String
  formatLongName : Option String
deriving DecidableEq, Repr

/-- The `video` sub-object of an Analysis Record. -/
structure VideoInfo : Type where
  codec : Option String
  codecLongName : Option String
  width : Option ℚ
  height : Option ℚ
  pixelFormat : Option String
  frameRate : Option String
deriving DecidableEq, Repr

/-- The `audio` sub-object of an Analysis Record. -/
structure AudioInfo : Type where
  codec : Option String
  codecLongName : Option String
  sampleRate : Option ℚ
  channels : Option ℚ
deriving DecidableEq, Repr

/-- The canonical Analysis Record produced by `src/analyze.js`.  `none` on a
field stands for the JS field being `null` or missing (the error records built
by `analyzeFiles` omit most keys; the success records set every key, possibly
to `null`). -/
structure AnalysisRecord : Type where
  path : String
  name : Option String := none
  kind : Option String := none
  sizeBytes : Option ℚ := none
  modifiedAt : Option String := none
  container : Option ContainerInfo := none
  video : Option VideoInfo := none
  audio : Option AudioInfo := none
  durationSec : Option ℚ := none
  bitRate : Option ℚ := none
  rawStreamCount : Option ℕ := none
  error : Option String := none
deriving DecidableEq, Repr

/-- File stats as `analyzeFiles` consumes them (`fs.stat` result): byte size,
`mtime.toISOString()`, and whether the path is a regular file. -/
structure Stat : Type where
  size : ℚ
  mtimeIso : String
  isFile : Bool
deriving DecidableEq, Repr

/-- `pickPrimaryVideoStream` from `src/analyze.js` (`find` keeps the first
match; `?? null` is the `Option`). -/
def pickPrimaryVideoStream (streams : List FfStream) : Option FfStream :=
  streams.find? (fun s => s.codec_type = some "video")

/-- `pickPrimaryAudioStream` from `src/analyze.js`. -/
def pickPrimaryAudioStream (streams : List FfStream) : Option FfStream :=
  streams.find? (fun s => s.codec_type = some "audio")

/-- `normalizeAnalysis` from `src/analyze.js`. -/
def normalizeAnalysis (relPath : String) (fileStats : Stat) (ffprobeJson : FfJson) :
    AnalysisRecord :=
  let format := ffprobeJson.format.getD ⟨none, none, none, none⟩
  let streams := ffprobeJson.streams.getD []
  let video := pickPrimaryVideoStream streams
  let audio := pickPrimaryAudioStream streams
  let hasVideo := video.isSome
  let hasAudio := audio.isSome
  let kind :=
    if hasVideo && hasAudio then "video"
    else if hasVideo && !hasAudio then "image"
    else if !hasVideo && hasAudio then "audio"
    else "unknown"
  let width := toNumberMaybe (video.bind (·.width))
  let height := toNumberMaybe (video.bind (·.height))
  let durationSec := toNumberMaybe format.duration
  let bitRate := toNumberMaybe format.bit_rate
  { path := relPath
    name := some (basename relPath)
    kind := some kind
    sizeBytes := some fileStats.size
    modifiedAt := some fileStats.mtimeIso
    container := some ⟨format.format_name, format.format_long_name⟩
    video := some
      { codec := video.bind (·.codec_name)
        codecLongName := video.bind (·.codec_long_name)
        width := width
        height := height
        pixelFormat := video.bind (·.pix_fmt)
        frameRate := video.bind (·.r_frame_rate) }
    audio := some
      { codec := audio.bind (·.codec_name)
        codecLongName := audio.bind (·.codec_long_name)
        sampleRate := toNumberMaybe (audio.bind (·.sample_rate))
        channels := toNumberMaybe (audio.bind (·.channels)) }
    durationSec := durationSec
    bitRate := bitRate
    rawStreamCount := some streams.length
    error := none }

/-- The environment `analyzeFiles` runs in, with the two effectful calls made
per path abstracted as functions: `fs.stat` (the claims under study are about
paths whose stat succeeds) and the ffprobe invocation, which either yields
parsed JSON or fails with a message (`err?.message ?? 'Analyze failed'`
already applied). -/
structure AnalyzeEnv : Type where
  stat : String → Stat
  probe : String → Except String FfJson

/-- The body of the `analyzeFiles` loop from `src/analyze.js` for one path:
stat, reject non-files with a bare `{path, error}` record, otherwise probe and
normalize, converting a probe failure into a partial error record. -/
def analyzeFile (env : AnalyzeEnv) (relPath : String) : AnalysisRecord :=
  let relative := normalizeRel relPath
  let stats := env.stat relative
  if !stats.isFile then
    { path := relative, error := some "Not a file" }
  else
    match env.probe relative with
    | .ok ffprobeJson => normalizeAnalysis relative stats ffprobeJson
    | .error msg =>
      { path := relative
        name := some (basename relative)
        kind := some (guessKindFromExtension relative)
        sizeBytes := some stats.size
        modifiedAt := some stats.mtimeIso
        error := some msg }

/-- `analyzeFiles` from `src/analyze.js`: the sequential loop over the batch,
collecting one record per path. -/
def analyzeFiles (env : AnalyzeEnv) (relPaths : List String) : List AnalysisRecord :=
  relPaths.map (analyzeFile env)

/-! ## Comparator (`src/compare.js`) -/

/-- A field value as the comparator sees it: a string or a number (the eleven
compared fields only ever hold these).  `Option CVal` with `none` for
`null`/missing. -/
inductive CVal : Type where
  | s (v : String)
  | q (v : ℚ)
deriving DecidableEq, Repr

/-- `get(obj, path)` from `src/compare.js`, specialised to the eleven dotted
paths of the fixed comparison field list; any other path yields `undefined`. -/
def fieldVal (a : AnalysisRecord) (f : String) : Option CVal :=
  if f = "kind" then a.kind.map .s
  else if f = "sizeBytes" then a.sizeBytes.map .q
  else if f = "container.formatName" then (a.container.bind (·.formatName)).map .s
  else if f = "video.codec" then (a.video.bind (·.codec)).map .s
  else if f = "video.width" then (a.video.bind (·.width)).map .q
  else if f = "video.height" then (a.video.bind (·.height)).map .q
  else if f = "audio.codec" then (a.audio.bind (·.codec)).map .s
  else if f = "audio.sampleRate" then (a.audio.bind (·.sampleRate)).map .q
  else if f = "audio.channels" then (a.audio.bind (·.channels)).map .q
  else if f = "durationSec" then a.durationSec.map .q
  else if f = "bitRate" then a.bitRate.map .q
  else none

/-- `normalizeForCompare`: `undefined` and the empty string become `null`. -/
def normalizeForCompare : Option CVal → Option CVal
  | some (.s v) => if v = "" then none else some (.s v)
  | x => x

/-- The normalized value of one comparison field on one record. -/
def normVal (a : AnalysisRecord) (f : String) : Option CVal :=
  normalizeForCompare (fieldVal a f)

/-- The fixed, hardcoded comparison field list of `compareAnalyses`. -/
def compareFields : List String :=
  ["kind", "sizeBytes", "container.formatName", "video.codec", "video.width",
   "video.height", "audio.codec", "audio.sampleRate", "audio.channels",
   "durationSec", "bitRate"]

/-- The field loop of `compareAnalyses`: walk the field list in order,
building the `similarities` entries (field, shared value) and the
`differences` entries (field, `{path, value}` pairs in input order). -/
def comparePass (rs : List AnalysisRecord) :
    List String → List (String × Option CVal) × List (String × List (String × Option CVal))
  | [] => ([], [])
  | f :: fs =>
    let rest := comparePass rs fs
    let values := rs.map (fun a => normVal a f)
    let first := values.headD none
    if values.all (fun v => v = first) then
      ((f, first) :: rest.1, rest.2)
    else
      (rest.1, (f, rs.map (fun a => (a.path, normVal a f))) :: rest.2)

/-- The output shape of `compareAnalyses`. -/
structure CompareResult : Type where
  count : ℕ
  files : List (String × Option String)
  similarities : List (String × Option CVal)
  differences : List (String × List (String × Option CVal))
deriving DecidableEq, Repr

/-- `compareAnalyses` from `src/compare.js`. -/
def compareAnalyses (analyses : List AnalysisRecord) : CompareResult :=
  { count := analyses.length
    files := analyses.map (fun a => (a.path, a.name))
    similarities := (comparePass analyses compareFields).1
    differences := (comparePass analyses compareFields).2 }

/-! ## Dashboard aggregator (`src/dashboard.js`) -/

/-- JS truthiness of the `error` field (`a.error`): present and non-empty. -/
def errTruthy : Option String → Bool
  | none => false
  | some s => s ≠ ""

/-- `normalizeKey` from `src/dashboard.js`, on the string-or-null values the
five dimensions produce: `null`/missing and blank strings normalize to
`"(unknown)"`, otherwise the trimmed string. -/
def normalizeKey : Option String → String
  | none => "(unknown)"
  | some v => let s := jsTrim v; if s = "" then "(unknown)" else s

/-- One step of the JS `Map`-based grouping in `countBy`: bump the entry for
`k` in place or append a fresh `(k, 1)` (insertion order preserved, exactly
`map.set(k, (map.get(k) ?? 0) + 1)`). -/
def assocIncr (acc : List (String × ℕ)) (k : String) : List (String × ℕ) :=
  if acc.any (fun p => p.1 = k) then
    acc.map (fun p => if p.1 = k then (p.1, p.2 + 1) else p)
  else acc ++ [(k, 1)]

/-- The grouping pass of `countBy`: fold the normalized keys through the map. -/
def jsGroup (keys : List String) : List (String × ℕ) :=
  keys.foldl assocIncr []

/-- The sort order of both `countBy` (`b.count - a.count ||
a.key.localeCompare(b.key)`) and the SQL `ORDER BY count DESC, key ASC`:
larger count first, ties by key ascending. -/
def pairRel (p r : String × ℕ) : Prop :=
  r.2 < p.2 ∨ (p.2 = r.2 ∧ strLeB p.1 r.1 = true)

instance : DecidableRel pairRel := fun p r => by
  unfold pairRel; infer_instance

/-- `countBy` from `src/dashboard.js`: group the normalized keys, then sort by
count descending and key ascending. -/
def countBy (items : List AnalysisRecord) (keyFn : AnalysisRecord → Option String) :
    List (String × ℕ) :=
  List.insertionSort pairRel (jsGroup (items.map (fun a => normalizeKey (keyFn a))))

/-- `sum` from `src/dashboard.js` on `Option ℚ` values: `Number(null)` is `0`
and every rational is finite, so each item adds its value or `0`. -/
def jsSum (items : List AnalysisRecord) (valueFn : AnalysisRecord → Option ℚ) : ℚ :=
  items.foldl (fun total a => total + (valueFn a).getD 0) 0

/-- One step of `minMax` from `src/dashboard.js` (`Number(null) = 0` counts
as a value; every rational is finite). -/
def jsMMStep (valueFn : AnalysisRecord → Option ℚ) (mm : Option ℚ × Option ℚ)
    (a : AnalysisRecord) : Option ℚ × Option ℚ :=
  let v := (valueFn a).getD 0
  let mn := match mm.1 with
    | none => some v
    | some m => if v < m then some v else some m
  let mx := match mm.2 with
    | none => some v
    | some m => if v > m then some v else some m
  (mn, mx)

/-- `minMax` from `src/dashboard.js`: one pass tracking min and max. -/
def jsMinMax (items : List AnalysisRecord) (valueFn : AnalysisRecord → Option ℚ) :
    Option ℚ × Option ℚ :=
  items.foldl (jsMMStep valueFn) (none, none)

/-- `resolutionKey` from `src/dashboard.js`: `"WxH"` when width and height are
finite positive numbers, else `null`. -/
def numKey (q : ℚ) : String :=
  if q.den = 1 then toString q.num else toString q

/-- The `${w}x${h}` key. -/
def resKeyStr (w h : ℚ) : String :=
  numKey w ++ "x" ++ numKey h

/-- `resolutionKey` from `src/dashboard.js`. -/
def resolutionKey (a : AnalysisRecord) : Option String :=
  match a.video with
  | none => none
  | some v =>
    match v.width, v.height with
    | some w, some h => if 0 < w ∧ 0 < h then some (resKeyStr w h) else none
    | _, _ => none

/-- The totals block shared by both dashboard shapes. -/
structure DashTotals : Type where
  selectedCount : ℕ
  analyzedOkCount : ℕ
  analyzedErrorCount : ℕ
  totalSizeBytes : ℚ
  totalDurationSec : ℚ
  bitRateMin : Option ℚ
  bitRateMax : Option ℚ
  durationSecMin : Option ℚ
  durationSecMax : Option ℚ
deriving DecidableEq, Repr

/-- The five count dimensions of the in-memory dashboard. -/
structure MemCounts : Type where
  kind : List (String × ℕ)
  containerFormat : List (String × ℕ)
  videoCodec : List (String × ℕ)
  audioCodec : List (String × ℕ)
  resolution : List (String × ℕ)
deriving DecidableEq, Repr

/-- Output of `buildDashboard`. -/
structure MemDashboard : Type where
  totals : DashTotals
  counts : MemCounts
deriving DecidableEq, Repr

/-- Whether `buildDashboard` treats a record as ok (`!a.error`). -/
def memOk (a : AnalysisRecord) : Bool := !errTruthy a.error

/-- `buildDashboard` from `src/dashboard.js`. -/
def buildDashboard (analyses : List AnalysisRecord) : MemDashboard :=
  let all := analyses
  let ok := all.filter memOk
  let errors := all.filter (fun a => errTruthy a.error)
  let totalSizeBytes := jsSum ok (·.sizeBytes)
  let totalDurationSec := jsSum ok (·.durationSec)
  let bitRateMinMax := jsMinMax ok (·.bitRate)
  let durationMinMax := jsMinMax ok (·.durationSec)
  { totals :=
      { selectedCount := all.length
        analyzedOkCount := ok.length
        analyzedErrorCount := errors.length
        totalSizeBytes := totalSizeBytes
        totalDurationSec := totalDurationSec
        bitRateMin := bitRateMinMax.1
        bitRateMax := bitRateMinMax.2
        durationSecMin := durationMinMax.1
        durationSecMax := durationMinMax.2 }
    counts :=
      { kind := countBy ok (·.kind)
        containerFormat := countBy ok (fun a => a.container.bind (·.formatName))
        videoCodec := countBy ok (fun a => a.video.bind (·.codec))
        audioCodec := countBy ok (fun a => a.audio.bind (·.codec))
        resolution := countBy ok resolutionKey } }

/-! ## Analysis store (`src/db.js`)

The Postgres pool is modelled as `Option Store`; `none` is the unconfigured
store (`DATABASE_URL` unset, `createPool()` returns `null`).  A `Store` is the
`media_analysis` table: a list of rows whose scalar columns are the
denormalized values `upsertAnalyses` writes and whose `data` column holds the
record verbatim. -/

/-- One row of `media_analysis`. -/
structure DbRow : Type where
  path : String
  kind : Option String
  size_bytes : Option ℚ
  modified_at : Option String
  analyzed_at : String
  container_format : Option String
  video_codec : Option String
  audio_codec : Option String
  width : Option ℚ
  height : Option ℚ
  duration_sec : Option ℚ
  bit_rate : Option ℚ
  data : AnalysisRecord
deriving DecidableEq, Repr

/-- The `media_analysis` table. -/
abbrev Store : Type := List DbRow

/-- The row the `INSERT ... ON CONFLICT` statement of `upsertAnalyses` writes
for a record: each scalar column is the corresponding record field (`?? null`),
`analyzed_at` is `NOW()` (the `now` argument), `data` the record itself.
`a.modifiedAt ? new Date(a.modifiedAt) : null` is falsy for the empty
string. -/
def toRow (now : String) (a : AnalysisRecord) : DbRow :=
  { path := a.path
    kind := a.kind
    size_bytes := a.sizeBytes
    modified_at :=
      match a.modifiedAt with
      | some s => if s = "" then none else some s
      | none => none
    analyzed_at := now
    container_format := a.container.bind (·.formatName)
    video_codec := a.video.bind (·.codec)
    audio_codec := a.audio.bind (·.codec)
    width := a.video.bind (·.width)
    height := a.video.bind (·.height)
    duration_sec := a.durationSec
    bit_rate := a.bitRate
    data := a }

/-- Insert-or-replace keyed by `path` (`ON CONFLICT (path) DO UPDATE` with the
`UNIQUE` constraint): replace the existing row in place, or append. -/
def upsertRow (st : Store) (r : DbRow) : Store :=
  if st.any (fun x => x.path = r.path) then
    st.map (fun x => if x.path = r.path then r else x)
  else st ++ [r]

/-- Counts returned by `upsertAnalyses`. -/
structure UpsertResult : Type where
  attempted : ℕ
  stored : ℕ
deriving DecidableEq, Repr

/-- `upsertAnalyses` from `src/db.js`: no pool means nothing happens; records
without a truthy (non-empty) path are skipped; the rest are upserted one by
one. -/
def upsertAnalyses (pool : Option Store) (now : String) (analyses : List AnalysisRecord) :
    Option Store × UpsertResult :=
  match pool with
  | none => (none, { attempted := 0, stored := 0 })
  | some st =>
    let rows := analyses.filter (fun a => a.path ≠ "")
    if rows.isEmpty then (some st, { attempted := 0, stored := 0 })
    else
      (some (rows.foldl (fun s a => upsertRow s (toRow now a)) st),
       { attempted := rows.length, stored := rows.length })

/-- `getAnalysesByPaths` from `src/db.js`: batch lookup of the `data` blobs for
the given non-empty path strings (`WHERE path = ANY($1)`), rows in table
order. -/
def getAnalysesByPaths (pool : Option Store) (paths : List String) :
    List AnalysisRecord :=
  match pool with
  | none => []
  | some st =>
    let list := paths.filter (fun p => p ≠ "")
    if list.isEmpty then []
    else (st.filter (fun r => r.path ∈ list)).map (·.data)

/-- Distinct keys of a list in first-occurrence order (any enumeration works
for modelling SQL `DISTINCT` / `GROUP BY`, which are order-canonicalized by
the `ORDER BY` that follows). -/
def firstDedup : List String → List String
  | [] => []
  | a :: l => a :: (firstDedup l).filter (fun b => b ≠ a)

/-- The grouped `(key, count)` rows of a SQL `GROUP BY key` over a key list. -/
def groupModel (l : List String) : List (String × ℕ) :=
  (firstDedup l).map (fun k => (k, l.count k))

/-- A `SELECT key, COUNT(*) ... GROUP BY key ORDER BY count DESC, key ASC`. -/
def sqlCountDim (keys : List String) : List (String × ℕ) :=
  List.insertionSort pairRel (groupModel keys)

/-- SQL `SUM` over nullable values with a trailing `COALESCE(..., 0)`:
`NULL` summands are ignored. -/
def sqlSum (l : List (Option ℚ)) : ℚ :=
  (l.filterMap id).sum

/-- One accumulation step of SQL `MIN` over nullable values. -/
def sqlMinStep (acc : Option ℚ) (x : Option ℚ) : Option ℚ :=
  match x with
  | none => acc
  | some v =>
    match acc with
    | none => some v
    | some m => some (min m v)

/-- SQL `MIN` over nullable values: `NULL` ignored, `NULL` when nothing
remains. -/
def sqlMin (l : List (Option ℚ)) : Option ℚ :=
  l.foldl sqlMinStep none

/-- One accumulation step of SQL `MAX` over nullable values. -/
def sqlMaxStep (acc : Option ℚ) (x : Option ℚ) : Option ℚ :=
  match x with
  | none => acc
  | some v =>
    match acc with
    | none => some v
    | some m => some (max m v)

/-- SQL `MAX` over nullable values. -/
def sqlMax (l : List (Option ℚ)) : Option ℚ :=
  l.foldl sqlMaxStep none

/-- String order for the `ORDER BY v` of the distinct-value queries. -/
def strRel (a b : String) : Prop := strLeB a b = true

instance : DecidableRel strRel := fun a b => by
  unfold strRel; infer_instance

/-- The search-options shape (`getSearchOptions`). -/
structure SearchOptions : Type where
  kind : List String
  containerFormat : List String
  videoCodec : List String
  audioCodec : List String
  resolution : List String
deriving DecidableEq, Repr

/-- One `SELECT DISTINCT col ... WHERE col IS NOT NULL ORDER BY v` followed by
the JS `.filter(Boolean)` (which drops empty strings). -/
def distinctValues (vals : List (Option String)) : List String :=
  (List.insertionSort strRel (firstDedup (vals.filterMap id))).filter (fun v => v ≠ "")

/-- `getSearchOptions` from `src/db.js`. -/
def getSearchOptions (pool : Option Store) : SearchOptions :=
  match pool with
  | none =>
    { kind := [], containerFormat := [], videoCodec := [], audioCodec := [],
      resolution := [] }
  | some st =>
    { kind := distinctValues (st.map (·.kind))
      containerFormat := distinctValues (st.map (·.container_format))
      videoCodec := distinctValues (st.map (·.video_codec))
      audioCodec := distinctValues (st.map (·.audio_codec))
      resolution := distinctValues (st.map (fun r =>
        match r.width, r.height with
        | some w, some h => some (resKeyStr w h)
        | _, _ => none)) }

/-- The search filter set after `pickSearchFilters` (missing/non-string body
fields already defaulted to `''`, `scope` to `'all'`). -/
structure SearchFilters : Type where
  kind : String := ""
  container : String := ""
  videoCodec : String := ""
  audioCodec : String := ""
  resolution : String := ""
  name : String := ""
  scope : String := "all"
  basePath : String := ""
deriving DecidableEq, Repr

/-- The `/^\s*(\d+)x(\d+)\s*$/` resolution-filter parse. -/
def parseResolution (s : String) : Option (ℚ × ℚ) :=
  let t := trimChars s.data
  let ds := t.takeWhile Char.isDigit
  let rest := t.drop ds.length
  match rest with
  | 'x' :: hs =>
    if ds ≠ [] ∧ hs ≠ [] ∧ hs.all Char.isDigit then
      match decimalVal ds, decimalVal hs with
      | some w, some h => some ((w : ℚ), (h : ℚ))
      | _, _ => none
    else none
  | _ => none

/-- Case-sensitive substring test on char lists (`hay` contains `needle`). -/
def containsSub (needle hay : List Char) : Bool :=
  hay.tails.any (fun t => needle.isPrefixOf t)

/-- The conjunction of `WHERE` conditions built by `searchAnalysesPaged`:
exact column matches for the metadata filters, a parsed `WxH` pair for the
resolution, case-insensitive substring on the path for `name` (`ILIKE
%name%`), and an escaped literal prefix for the scope. -/
def rowMatches (f : SearchFilters) (pre : String) (r : DbRow) : Bool :=
  (f.kind = "" || r.kind = some f.kind) &&
  (f.container = "" || r.container_format = some f.container) &&
  (f.videoCodec = "" || r.video_codec = some f.videoCodec) &&
  (f.audioCodec = "" || r.audio_codec = some f.audioCodec) &&
  (f.resolution = "" ||
    match parseResolution f.resolution with
    | some (w, h) => r.width = some w && r.height = some h
    | none => true) &&
  (jsTrim f.name = "" ||
    containsSub (jsToLower (jsTrim f.name)).data (jsToLower r.path).data) &&
  (pre = "" || strPrefix pre r.path)

/-- `ORDER BY path` on rows. -/
def rowRel (a b : DbRow) : Prop := strLeB a.path b.path = true

instance : DecidableRel rowRel := fun a b => by
  unfold rowRel; infer_instance

/-- `Number.isFinite(x) && x > 0 ? Math.floor(x) : fb` (the env-var guards on
`SEARCH_MAX_RESULTS` and `SEARCH_DB_CHUNK_SIZE`). -/
def posFloorD (x : Option ℚ) (fb : ℕ) : ℕ :=
  match x with
  | some q => if 0 < q then q.floor.toNat else fb
  | none => fb

/-- The `safeLimit` computation of `searchAnalysesPaged`. -/
def safeLimitOf (limit : Option ℚ) (maxLimit : ℕ) : ℕ :=
  match limit with
  | some q => if 0 < q then min q.floor.toNat maxLimit else min 100 maxLimit
  | none => min 100 maxLimit

/-- The `safeOffset` computation of `searchAnalysesPaged`. -/
def safeOffsetOf (offset : Option ℚ) : ℕ :=
  match offset with
  | some q => if 0 < q then q.floor.toNat else 0
  | none => 0

/-- The page shape returned by `searchAnalysesPaged`. -/
structure PagedResult : Type where
  items : List AnalysisRecord
  total : ℕ
  limit : ℕ
  offset : ℕ
deriving DecidableEq, Repr

/-- `searchAnalysesPaged` from `src/db.js`: count all matches, then return one
page of `data` blobs ordered by path. -/
def searchAnalysesPaged (maxRaw : Option ℚ) (pool : Option Store)
    (f : SearchFilters) (scopePrefix : String) (limit offset : Option ℚ) :
    PagedResult :=
  match pool with
  | none => { items := [], total := 0, limit := 0, offset := 0 }
  | some st =>
    let pre := jsTrim scopePrefix
    let matching := st.filter (rowMatches f pre)
    let maxLimit := posFloorD maxRaw 2000
    let safeLimit := safeLimitOf limit maxLimit
    let safeOffset := safeOffsetOf offset
    let items :=
      (((List.insertionSort rowRel matching).drop safeOffset).take safeLimit).map (·.data)
    { items := items, total := matching.length, limit := safeLimit, offset := safeOffset }

/-- A row counts as ok for the store-backed dashboard when the blob has no
`error` key (`NOT (data ? 'error')` — key presence, not truthiness). -/
def dbOkRow (r : DbRow) : Bool := r.data.error.isNone

/-- The nine count dimensions of the store-backed dashboard. -/
structure DbCounts : Type where
  kind : List (String × ℕ)
  containerFormat : List (String × ℕ)
  videoCodec : List (String × ℕ)
  pixelFormat : List (String × ℕ)
  frameRate : List (String × ℕ)
  audioCodec : List (String × ℕ)
  audioSampleRate : List (String × ℕ)
  audioChannels : List (String × ℕ)
  resolution : List (String × ℕ)
deriving DecidableEq, Repr

/-- Output of `getDashboardFromDb`. -/
structure DbDashboard : Type where
  totals : DashTotals
  counts : DbCounts
deriving DecidableEq, Repr

/-- The all-zero/empty dashboard returned when no pool is configured. -/
def emptyDbDashboard : DbDashboard :=
  { totals :=
      { selectedCount := 0, analyzedOkCount := 0, analyzedErrorCount := 0,
        totalSizeBytes := 0, totalDurationSec := 0,
        bitRateMin := none, bitRateMax := none,
        durationSecMin := none, durationSecMax := none }
    counts :=
      { kind := [], containerFormat := [], videoCodec := [], pixelFormat := [],
        frameRate := [], audioCodec := [], audioSampleRate := [],
        audioChannels := [], resolution := [] } }

/-- `getDashboardFromDb` from `src/db.js`: totals over the scoped rows (errors
detected by the `error` key in the blob), and nine `GROUP BY` dimensions over
the ok rows, each excluding SQL `NULL` keys (and `''` for the four
blob-extracted dimensions).  The four scalar dimensions group the denormalized
columns; `pixelFormat`, `frameRate`, `audioSampleRate` and `audioChannels`
extract text from the blob (`->>` renders numbers in decimal). -/
def getDashboardFromDb (pool : Option Store) (scopePrefix : String) : DbDashboard :=
  match pool with
  | none => emptyDbDashboard
  | some rows =>
    let pre := jsTrim scopePrefix
    let scopedRows := rows.filter (fun r => strPrefix pre r.path)
    let okRows := scopedRows.filter dbOkRow
    { totals :=
        { selectedCount := 0
          analyzedOkCount := scopedRows.countP (fun r => dbOkRow r)
          analyzedErrorCount := scopedRows.countP (fun r => !dbOkRow r)
          totalSizeBytes :=
            sqlSum (scopedRows.map (fun r => if dbOkRow r then r.size_bytes else some 0))
          totalDurationSec :=
            sqlSum (scopedRows.map (fun r => if dbOkRow r then r.duration_sec else some 0))
          bitRateMin :=
            sqlMin (scopedRows.map (fun r => if dbOkRow r then r.bit_rate else none))
          bitRateMax :=
            sqlMax (scopedRows.map (fun r => if dbOkRow r then r.bit_rate else none))
          durationSecMin :=
            sqlMin (scopedRows.map (fun r => if dbOkRow r then r.duration_sec else none))
          durationSecMax :=
            sqlMax (scopedRows.map (fun r => if dbOkRow r then r.duration_sec else none)) }
      counts :=
        { kind := sqlCountDim (okRows.filterMap (·.kind))
          containerFormat := sqlCountDim (okRows.filterMap (·.container_format))
          videoCodec := sqlCountDim (okRows.filterMap (·.video_codec))
          pixelFormat :=
            sqlCountDim ((okRows.filterMap (fun r => r.data.video.bind (·.pixelFormat))).filter
              (fun v => v ≠ ""))
          frameRate :=
            sqlCountDim ((okRows.filterMap (fun r => r.data.video.bind (·.frameRate))).filter
              (fun v => v ≠ ""))
          audioCodec := sqlCountDim (okRows.filterMap (·.audio_codec))
          audioSampleRate :=
            sqlCountDim ((okRows.filterMap (fun r =>
              (r.data.audio.bind (·.sampleRate)).map numKey)).filter (fun v => v ≠ ""))
          audioChannels :=
            sqlCountDim ((okRows.filterMap (fun r =>
              (r.data.audio.bind (·.channels)).map numKey)).filter (fun v => v ≠ ""))
          resolution :=
            sqlCountDim (okRows.filterMap (fun r =>
              match r.width, r.height with
              | some w, some h => some (resKeyStr w h)
              | _, _ => none)) } }

/-! ## The search route (`POST /api/search` in the server) -/

/-- `parseNonNegInt` from the server: `Number(val)`, fallback on non-finite,
floor, fallback when negative. -/
def parseNonNegInt (val : Option ℚ) (fallback : ℕ) : ℕ :=
  match val with
  | some q => if 0 ≤ q.floor then q.floor.toNat else fallback
  | none => fallback

/-- `chunkArray` from the server. -/
def chunkArray {α : Type} (l : List α) (sz : ℕ) : List (List α) :=
  if h : l.isEmpty then []
  else if _h2 : sz = 0 then []
  else l.take sz :: chunkArray (l.drop sz) sz
termination_by l.length
decreasing_by
  simp only [List.length_drop]
  have hl : l ≠ [] := by
    intro he
    exact h (by simp [he])
  have : 0 < l.length := List.length_pos.mpr hl
  omega

/-- One search result as the route returns it: a stored record spread with
`analyzed: true`, or a bare `{path, name, analyzed: false}` entry. -/
inductive ResultItem : Type where
  | found (a : AnalysisRecord)
  | bare (path name : String)
deriving DecidableEq, Repr

/-- The route's response body. -/
structure SearchResponse : Type where
  results : List ResultItem
  total : ℕ
  limit : ℕ
  offset : ℕ
deriving DecidableEq, Repr

/-- Everything ambient the route reads: the recursive file listing of the
media root (relative paths), the pool, and the two env knobs. -/
structure ServerEnv : Type where
  tree : List String
  pool : Option Store
  maxRaw : Option ℚ
  chunkRaw : Option ℚ

/-- JS `Map.set` on an assoc list (replace in place or append). -/
def assocSet (m : List (String × AnalysisRecord)) (k : String) (v : AnalysisRecord) :
    List (String × AnalysisRecord) :=
  if m.any (fun p => p.1 = k) then
    m.map (fun p => if p.1 = k then (k, v) else p)
  else m ++ [(k, v)]

/-- JS `Map.get` on an assoc list. -/
def assocGet (m : List (String × AnalysisRecord)) (k : String) : Option AnalysisRecord :=
  (m.find? (fun p => p.1 = k)).map (·.2)

/-- The `POST /api/search` handler from the server: zero filters short-circuit
to an empty result; metadata filters go to the store-backed paged search;
name-only search enumerates the tree, pages it, and joins the page against the
store when available.  (In the name-only branch the handler's inner
`if (needsMeta)` test is retained as in the source; it is dead there.) -/
def searchHandler (env : ServerEnv) (f : SearchFilters) (limitB offsetB : Option ℚ) :
    SearchResponse :=
  let nameQ := jsToLower (jsTrim f.name)
  let limit := parseNonNegInt limitB 100
  let offset := parseNonNegInt offsetB 0
  let maxLimit := posFloorD env.maxRaw 2000
  let safeLimit := max 1 (min (if limit = 0 then 100 else limit) maxLimit)
  let safeOffset := offset
  let needsMeta :=
    (f.kind ≠ "" : Bool) || (f.container ≠ "" : Bool) || (f.videoCodec ≠ "" : Bool) ||
    (f.audioCodec ≠ "" : Bool) || (f.resolution ≠ "" : Bool)
  if nameQ = "" && !needsMeta then
    { results := [], total := 0, limit := safeLimit, offset := safeOffset }
  else
    let scopePrefix :=
      if f.scope = "current" then
        let rel := normalizeRel f.basePath
        if rel ≠ "" then rel ++ "/" else ""
      else ""
    if needsMeta then
      match env.pool with
      | none => { results := [], total := 0, limit := safeLimit, offset := safeOffset }
      | some _ =>
        let paged := searchAnalysesPaged env.maxRaw env.pool f scopePrefix
          (some (safeLimit : ℚ)) (some (safeOffset : ℚ))
        let results := (paged.items.filter (fun a => a.path ≠ "")).map ResultItem.found
        { results := results, total := paged.total, limit := paged.limit,
          offset := paged.offset }
    else
      let allFiles := env.tree
      let cand1 :=
        if scopePrefix ≠ "" then allFiles.filter (fun p => strPrefix scopePrefix p)
        else allFiles
      let candidates :=
        if nameQ ≠ "" then cand1.filter (fun p => containsSub nameQ.data (jsToLower p).data)
        else cand1
      let total := candidates.length
      let page := (candidates.drop safeOffset).take safeLimit
      match env.pool with
      | none =>
        { results := page.map (fun p => ResultItem.bare p (basename p)), total := total,
          limit := safeLimit, offset := safeOffset }
      | some _ =>
        let chunkSize := posFloorD env.chunkRaw 2000
        let chunks := chunkArray page chunkSize
        let analyses :=
          (chunks.map (fun c => getAnalysesByPaths env.pool c)).flatten
        let found := analyses.foldl
          (fun m a => if a.path ≠ "" then assocSet m a.path a else m) []
        let results := page.map (fun p =>
          match assocGet found p with
          | some a => ResultItem.found a
          | none => ResultItem.bare p (basename p))
        { results := results, total := total, limit := safeLimit, offset := safeOffset }

/-! ## General list lemmas used below -/

theorem find?_isSome_eq_any {α : Type} (l : List α) (p : α → Bool) :
    (l.find? p).isSome = l.any p := by
  induction l with
  | nil => rfl
  | cons a t ih => by_cases h : p a <;> simp [List.find?, h, ih]

theorem filterMap_eq_map_of_some {α β : Type} (l : List α) (f : α → Option β)
    (g : α → β) (h : ∀ a ∈ l, f a = some (g a)) : l.filterMap f = l.map g := by
  induction l with
  | nil => rfl
  | cons a t ih =>
    simp only [List.filterMap_cons, List.map_cons, h a (by simp)]
    rw [ih (fun a ha => h a (by simp [ha]))]

/-! ## C1 — classification by stream presence -/

/-- Presence-based classification of a parsed probe result, as the spec words
it: video+audio → video, video-only → image, audio-only → audio, neither →
unknown, reading "a video/audio stream is present" directly off the stream
list. -/
def classifyStreams (j : FfJson) : String :=
  let streams := j.streams.getD []
  let hasV := streams.any (fun s => s.codec_type = some "video")
  let hasA := streams.any (fun s => s.codec_type = some "audio")
  if hasV && hasA then "video"
  else if hasV then "image"
  else if hasA then "audio"
  else "unknown"

theorem normalizeAnalysis_kind (rel : String) (st : Stat) (j : FfJson) :
    (normalizeAnalysis rel st j).kind = some (classifyStreams j) := by
  simp only [normalizeAnalysis, classifyStreams, pickPrimaryVideoStream,
    pickPrimaryAudioStream]
  simp only [find?_isSome_eq_any]
  cases hv : (j.streams.getD []).any (fun s => s.codec_type = some "video") <;>
    cases ha : (j.streams.getD []).any (fun s => s.codec_type = some "audio") <;> simp

/-- C1: for a file whose probe succeeds, the record's `kind` is determined
solely by stream presence in the parsed probe output (video+audio → "video",
video-only → "image", audio-only → "audio", neither → "unknown"); the
extension-based guess is used exactly when there is no probe data (the probe
failed). -/
theorem C1_kind_from_stream_presence (env : AnalyzeEnv) (p : String) :
    ((env.stat (normalizeRel p)).isFile = true →
      (∀ j : FfJson, env.probe (normalizeRel p) = .ok j →
        (analyzeFile env p).kind = some (classifyStreams j))) ∧
    ((env.stat (normalizeRel p)).isFile = true →
      (∀ e : String, env.probe (normalizeRel p) = .error e →
        (analyzeFile env p).kind =
          some (guessKindFromExtension (normalizeRel p)))) := by
  constructor
  · intro hfile j hprobe
    simp only [analyzeFile, hfile, hprobe]
    simpa using normalizeAnalysis_kind (normalizeRel p) (env.stat (normalizeRel p)) j
  · intro hfile e hprobe
    simp only [analyzeFile, hfile, hprobe]
    rfl

/-- A concrete probe environment: every path stats as a 100-byte regular file
and probes to one video plus one audio stream. -/
def envVideoAudio : AnalyzeEnv :=
  { stat := fun _ => { size := 100, mtimeIso := "2024-01-01T00:00:00.000Z", isFile := true }
    probe := fun _ => .ok
      { format := some { format_name := some "mov,mp4", format_long_name := some "QuickTime",
                         duration := some (.str "10.5"), bit_rate := some (.str "1000000") }
        streams := some
          [ { codec_type := some "video", codec_name := some "h264",
              codec_long_name := some "H.264", width := some (.num 1920),
              height := some (.num 1080), pix_fmt := some "yuv420p",
              r_frame_rate := some "30/1", sample_rate := none, channels := none },
            { codec_type := some "audio", codec_name := some "aac",
              codec_long_name := some "AAC", width := none, height := none,
              pix_fmt := none, r_frame_rate := none,
              sample_rate := some (.str "48000"), channels := some (.num 2) } ] } }

theorem C1_witness :
    (envVideoAudio.stat (normalizeRel "clips/a.mp4")).isFile = true ∧
    (analyzeFile envVideoAudio "clips/a.mp4").kind = some "video" := by
  refine ⟨rfl, ?_⟩
  have h := (C1_kind_from_stream_presence envVideoAudio "clips/a.mp4").1 rfl _ rfl
  rw [h]
  rfl

/-! ## C9 — failure records in `analyzeFiles` -/

/-- An environment in which every path stats as a directory. -/
def envNotAFile : AnalyzeEnv :=
  { stat := fun _ => { size := 0, mtimeIso := "2024-01-01T00:00:00.000Z", isFile := false }
    probe := fun _ => .error "ffprobe exited with code 1:" }

/-- C9 counterexample: for a non-regular-file path the produced error record
is the bare `{path, error}` object — contrary to the claim it carries no
`name`, no `kind`, no `sizeBytes` and no `modifiedAt`. -/
theorem C9_counterexample :
    analyzeFiles envNotAFile ["somedir"] =
      [{ path := "somedir", error := some "Not a file" }] ∧
    (analyzeFiles envNotAFile ["somedir"]).map (·.name) = [none] ∧
    (analyzeFiles envNotAFile ["somedir"]).map (·.kind) = [none] ∧
    (analyzeFiles envNotAFile ["somedir"]).map (·.sizeBytes) = [none] ∧
    (analyzeFiles envNotAFile ["somedir"]).map (·.modifiedAt) = [none] := by
  refine ⟨?_, ?_, ?_, ?_, ?_⟩ <;> rfl

/-- C9 (amended): a probe failure yields an error record carrying path, name,
the extension-fallback kind, sizeBytes, modifiedAt and the error message; a
non-regular-file path yields the bare `{path, error: 'Not a file'}` record —
carrying none of those fields — produced without consulting the probe; and a
failing path never prevents the remaining paths in the batch from being
processed (the batch result is always one record per path, in order). -/
theorem C9_failure_records (env : AnalyzeEnv) (p : String) (ps : List String) :
    (analyzeFiles env (p :: ps) = analyzeFile env p :: analyzeFiles env ps) ∧
    ((env.stat (normalizeRel p)).isFile = false →
      analyzeFile env p = { path := normalizeRel p, error := some "Not a file" } ∧
      (∀ env2 : AnalyzeEnv, env2.stat = env.stat → analyzeFile env2 p = analyzeFile env p)) ∧
    (∀ e : String, (env.stat (normalizeRel p)).isFile = true →
      env.probe (normalizeRel p) = .error e →
      analyzeFile env p =
        { path := normalizeRel p
          name := some (basename (normalizeRel p))
          kind := some (guessKindFromExtension (normalizeRel p))
          sizeBytes := some (env.stat (normalizeRel p)).size
          modifiedAt := some (env.stat (normalizeRel p)).mtimeIso
          error := some e }) := by
  refine ⟨rfl, ?_, ?_⟩
  · intro hdir
    constructor
    · simp only [analyzeFile, hdir]
      rfl
    · intro env2 hstat
      simp only [analyzeFile, hstat, hdir]
      rfl
  · intro e hfile hprobe
    simp only [analyzeFile, hfile, hprobe]
    rfl

/-- An environment in which every path stats as a 7-byte regular file but the
probe output fails to parse. -/
def envBadProbe : AnalyzeEnv :=
  { stat := fun _ => { size := 7, mtimeIso := "2024-01-01T00:00:00.000Z", isFile := true }
    probe := fun _ => .error "Failed to parse ffprobe JSON: Unexpected end" }

theorem C9_witness :
    (envNotAFile.stat (normalizeRel "somedir")).isFile = false ∧
    (envVideoAudio.stat (normalizeRel "bad.bin")).isFile = true ∧
    analyzeFile envNotAFile "somedir" =
      { path := "somedir", error := some "Not a file" } ∧
    analyzeFile envBadProbe "bad.mp3" =
      { path := "bad.mp3", name := some "bad.mp3", kind := some "audio",
        sizeBytes := some 7, modifiedAt := some "2024-01-01T00:00:00.000Z",
        error := some "Failed to parse ffprobe JSON: Unexpected end" } := by
  refine ⟨rfl, rfl, ?_, ?_⟩
  · exact ((C9_failure_records envNotAFile "somedir" []).2.1 rfl).1
  · have h := (C9_failure_records envBadProbe "bad.mp3" []).2.2
      "Failed to parse ffprobe JSON: Unexpected end" rfl rfl
    rw [h]
    decide

/-! ## C10 — presence of the `video`/`audio` sub-objects -/

/-- C10 counterexample: a successful probe with an empty stream list still
produces a record whose `video` and `audio` sub-objects are present (all
fields null), contrary to "absent when the corresponding stream is absent". -/
theorem C10_counterexample :
    (normalizeAnalysis "a.mp4"
        { size := 1, mtimeIso := "t", isFile := true }
        { format := none, streams := some [] }).video =
      some { codec := none, codecLongName := none, width := none, height := none,
             pixelFormat := none, frameRate := none } ∧
    (normalizeAnalysis "a.mp4"
        { size := 1, mtimeIso := "t", isFile := true }
        { format := none, streams := some [] }).audio =
      some { codec := none, codecLongName := none, sampleRate := none,
             channels := none } ∧
    ((normalizeAnalysis "a.mp4"
        { size := 1, mtimeIso := "t", isFile := true }
        { format := none, streams := some [] }).video ≠ none) := by
  refine ⟨rfl, rfl, by decide⟩

/-- C10 (amended): on every successfully probed file the record's `video` and
`audio` sub-objects are always present; when no stream of the corresponding
type exists the sub-object's fields are all null, and when one exists the
sub-object is populated from the first stream of that type. -/
theorem C10_sub_objects (rel : String) (st : Stat) (j : FfJson) :
    ((normalizeAnalysis rel st j).video.isSome = true ∧
     (normalizeAnalysis rel st j).audio.isSome = true) ∧
    ((j.streams.getD []).any (fun s => s.codec_type = some "video") = false →
      (normalizeAnalysis rel st j).video =
        some { codec := none, codecLongName := none, width := none, height := none,
               pixelFormat := none, frameRate := none }) ∧
    ((j.streams.getD []).any (fun s => s.codec_type = some "audio") = false →
      (normalizeAnalysis rel st j).audio =
        some { codec := none, codecLongName := none, sampleRate := none,
               channels := none }) ∧
    (∀ s : FfStream, pickPrimaryVideoStream (j.streams.getD []) = some s →
      (normalizeAnalysis rel st j).video =
        some { codec := s.codec_name, codecLongName := s.codec_long_name,
               width := toNumberMaybe s.width, height := toNumberMaybe s.height,
               pixelFormat := s.pix_fmt, frameRate := s.r_frame_rate }) ∧
    (∀ s : FfStream, pickPrimaryAudioStream (j.streams.getD []) = some s →
      (normalizeAnalysis rel st j).audio =
        some { codec := s.codec_name, codecLongName := s.codec_long_name,
               sampleRate := toNumberMaybe s.sample_rate,
               channels := toNumberMaybe s.channels }) := by
  refine ⟨⟨rfl, rfl⟩, ?_, ?_, ?_, ?_⟩
  · intro hv
    have : pickPrimaryVideoStream (j.streams.getD []) = none := by
      have := find?_isSome_eq_any (j.streams.getD []) (fun s => s.codec_type = some "video")
      unfold pickPrimaryVideoStream
      rw [hv] at this
      exact Option.not_isSome_iff_eq_none.mp (by simp [this])
    simp only [normalizeAnalysis, this]
    rfl
  · intro ha
    have : pickPrimaryAudioStream (j.streams.getD []) = none := by
      have := find?_isSome_eq_any (j.streams.getD []) (fun s => s.codec_type = some "audio")
      unfold pickPrimaryAudioStream
      rw [ha] at this
      exact Option.not_isSome_iff_eq_none.mp (by simp [this])
    simp only [normalizeAnalysis, this]
    rfl
  · intro s hs
    simp only [normalizeAnalysis, pickPrimaryVideoStream] at hs ⊢
    rw [hs]
    rfl
  · intro s hs
    simp only [normalizeAnalysis, pickPrimaryAudioStream] at hs ⊢
    rw [hs]
    rfl

theorem C10_witness :
    ((({ format := none, streams := some [] } : FfJson).streams.getD []).any
        (fun s => s.codec_type = some "video") = false) ∧
    (normalizeAnalysis "x.bin" { size := 2, mtimeIso := "t", isFile := true }
        { format := none, streams := some [] }).video =
      some { codec := none, codecLongName := none, width := none, height := none,
             pixelFormat := none, frameRate := none } := by
  exact ⟨rfl,
    (C10_sub_objects "x.bin" { size := 2, mtimeIso := "t", isFile := true }
      { format := none, streams := some [] }).2.1 rfl⟩

/-! ## Grouping lemmas: the JS `Map` fold agrees with declarative grouping -/

theorem mem_firstDedup (l : List String) (x : String) :
    x ∈ firstDedup l ↔ x ∈ l := by
  induction l with
  | nil => simp [firstDedup]
  | cons a t ih =>
    simp only [firstDedup, List.mem_cons, List.mem_filter, decide_eq_true_eq, ih]
    by_cases hx : x = a <;> simp [hx]

theorem nodup_firstDedup (l : List String) : (firstDedup l).Nodup := by
  induction l with
  | nil => simp [firstDedup]
  | cons a t ih =>
    refine List.nodup_cons.mpr ⟨?_, ih.filter _⟩
    intro hmem
    have h2 := (List.mem_filter.mp hmem).2
    simp at h2

theorem firstDedup_append_singleton (l : List String) (k : String) :
    firstDedup (l ++ [k]) =
      if k ∈ l then firstDedup l else firstDedup l ++ [k] := by
  induction l with
  | nil => simp [firstDedup]
  | cons a t ih =>
    simp only [List.cons_append, firstDedup, List.append_eq]
    rw [ih]
    by_cases hkt : k ∈ t
    · rw [if_pos hkt, if_pos (by simp [hkt])]
    · by_cases hka : k = a
      · subst hka
        rw [if_neg hkt, if_pos (by simp), List.filter_append]
        simp [firstDedup]
      · rw [if_neg hkt, if_neg (by simp [hka, hkt]), List.filter_append]
        simp [firstDedup, hka]

theorem assocIncr_groupModel (pre : List String) (k : String) :
    assocIncr (groupModel pre) k = groupModel (pre ++ [k]) := by
  by_cases hk : k ∈ pre
  · have hany : (groupModel pre).any (fun p => p.1 = k) = true := by
      simp only [List.any_eq_true]
      exact ⟨(k, pre.count k),
        List.mem_map.mpr ⟨k, (mem_firstDedup pre k).mpr hk, rfl⟩, by simp⟩
    unfold assocIncr
    rw [if_pos hany]
    unfold groupModel
    rw [firstDedup_append_singleton, if_pos hk, List.map_map]
    refine List.map_congr_left (fun x hx => ?_)
    by_cases hxk : x = k
    · subst hxk
      simp [List.count_append]
    · simp [hxk, List.count_append, Ne.symm hxk]
  · have hany : (groupModel pre).any (fun p => p.1 = k) = false := by
      rw [List.any_eq_false]
      intro p hmem
      rcases List.mem_map.mp hmem with ⟨y, hy, he⟩
      subst he
      simp only [decide_eq_true_eq]
      intro hxy
      exact hk ((mem_firstDedup pre k).mp (by rw [← hxy]; exact hy))
    unfold assocIncr
    rw [if_neg (by simp [hany])]
    unfold groupModel
    rw [firstDedup_append_singleton, if_neg hk, List.map_append]
    congr 1
    · refine List.map_congr_left (fun x hx => ?_)
      have hxk : x ≠ k := fun he => hk ((mem_firstDedup pre x).mp hx |> (he ▸ ·))
      simp [List.count_append, hxk]
    · simp [List.count_append, List.count_eq_zero.mpr hk]

theorem jsGroup_eq_groupModel (keys : List String) : jsGroup keys = groupModel keys := by
  have main : ∀ (ks pre : List String),
      ks.foldl assocIncr (groupModel pre) = groupModel (pre ++ ks) := by
    intro ks
    induction ks with
    | nil => intro pre; simp
    | cons k kt ih =>
      intro pre
      rw [List.foldl_cons, assocIncr_groupModel, ih (pre ++ [k])]
      simp
  have h := main keys []
  simpa [jsGroup, groupModel, firstDedup] using h

theorem sum_filter_ne {α : Type} [DecidableEq α] (L : List α) (f : α → ℕ) (a : α)
    (hnd : L.Nodup) :
    (L.map f).sum =
      ((L.filter (fun b => b ≠ a)).map f).sum + (if a ∈ L then f a else 0) := by
  induction L with
  | nil => simp
  | cons b t ih =>
    rcases List.nodup_cons.mp hnd with ⟨hbt, hnt⟩
    by_cases hba : b = a
    · subst hba
      have hfe : t.filter (fun x => decide (x ≠ b)) = t :=
        List.filter_eq_self.mpr (fun x hx => by
          simp only [decide_eq_true_eq]
          exact fun h => hbt (h ▸ hx))
      simp only [List.map_cons, List.sum_cons, List.filter_cons,
        decide_eq_true_eq]
      rw [if_neg (by simp), hfe, if_pos (List.mem_cons_self b t)]
      omega
    · simp only [List.map_cons, List.sum_cons, List.filter_cons,
        decide_eq_true_eq]
      rw [if_pos hba, List.map_cons, List.sum_cons, ih hnt]
      by_cases ha : a ∈ t
      · rw [if_pos ha, if_pos (List.mem_cons_of_mem b ha)]
        omega
      · rw [if_neg ha,
          if_neg (fun hm => by
            rcases List.mem_cons.mp hm with h | h
            exacts [hba h.symm, ha h])]
        omega

theorem sum_counts_firstDedup (l : List String) :
    ((firstDedup l).map (fun k => l.count k)).sum = l.length := by
  induction l with
  | nil => simp [firstDedup]
  | cons a t ih =>
    simp only [firstDedup, List.map_cons, List.sum_cons]
    have h1 : (a :: t).count a = t.count a + 1 := by
      simp [List.count_cons_self]
    have hmap : ((firstDedup t).filter (fun b => b ≠ a)).map (fun k => (a :: t).count k) =
        ((firstDedup t).filter (fun b => b ≠ a)).map (fun k => t.count k) :=
      List.map_congr_left (fun b hb => by
        have hba : b ≠ a := by simpa using (List.mem_filter.mp hb).2
        exact List.count_cons_of_ne hba t)
    rw [h1, hmap]
    have h2 := sum_filter_ne (firstDedup t) (fun k => t.count k) a (nodup_firstDedup t)
    simp only [] at h2
    rw [ih] at h2
    by_cases ha : a ∈ t
    · rw [if_pos ((mem_firstDedup t a).mpr ha)] at h2
      have hle : t.count a ≤ t.length := List.count_le_length a t
      simp only [List.length_cons]
      omega
    · rw [if_neg (fun hm => ha ((mem_firstDedup t a).mp hm))] at h2
      have hc0 : t.count a = 0 := List.count_eq_zero.mpr ha
      simp only [List.length_cons]
      omega

/-- The counts of a `countBy` dimension sum to the number of grouped items. -/
theorem countBy_sum (items : List AnalysisRecord) (g : AnalysisRecord → Option String) :
    ((countBy items g).map Prod.snd).sum = items.length := by
  unfold countBy
  have hperm := List.perm_insertionSort pairRel
    (jsGroup (items.map (fun a => normalizeKey (g a))))
  rw [(hperm.map Prod.snd).sum_eq, jsGroup_eq_groupModel]
  unfold groupModel
  rw [List.map_map]
  have : ((firstDedup (items.map (fun a => normalizeKey (g a)))).map
      (Prod.snd ∘ fun k => (k, (items.map (fun a => normalizeKey (g a))).count k))) =
      ((firstDedup (items.map (fun a => normalizeKey (g a)))).map
      (fun k => (items.map (fun a => normalizeKey (g a))).count k)) := rfl
  rw [this, sum_counts_firstDedup, List.length_map]

/-! ## C5 — ok/error partition of the totals -/

/-- C5: for every list of Analysis Records, `analyzedOkCount +
analyzedErrorCount` equals the number of input records (each record counts as
exactly one of ok or error). -/
theorem C5_totals_partition (analyses : List AnalysisRecord) :
    (buildDashboard analyses).totals.analyzedOkCount +
      (buildDashboard analyses).totals.analyzedErrorCount = analyses.length ∧
    (buildDashboard analyses).totals.selectedCount = analyses.length := by
  constructor
  · simp only [buildDashboard]
    have hsplit := List.length_eq_countP_add_countP
      (l := analyses) (fun a => errTruthy a.error)
    rw [List.countP_eq_length_filter, List.countP_eq_length_filter] at hsplit
    have hok : analyses.filter memOk =
        analyses.filter (fun a => !errTruthy a.error) := rfl
    rw [hok]
    have : analyses.filter (fun a => !errTruthy a.error) =
        analyses.filter (fun a => decide ¬(errTruthy a.error = true)) := by
      apply List.filter_congr
      intro a _
      simp
    rw [this]
    omega
  · rfl

/-! ## C4 — per-dimension counts sum to the ok count -/

/-- C4: in every count dimension of the in-memory dashboard the counts sum to
`analyzedOkCount` — every ok record falls into exactly one bucket per
dimension, blanks and absent values landing in the `"(unknown)"` bucket
(`normalizeKey` sends `null`/missing and blank strings there) rather than
being dropped. -/
theorem C4_dimension_counts_sum (analyses : List AnalysisRecord) :
    (((buildDashboard analyses).counts.kind.map Prod.snd).sum =
        (buildDashboard analyses).totals.analyzedOkCount ∧
      ((buildDashboard analyses).counts.containerFormat.map Prod.snd).sum =
        (buildDashboard analyses).totals.analyzedOkCount ∧
      ((buildDashboard analyses).counts.videoCodec.map Prod.snd).sum =
        (buildDashboard analyses).totals.analyzedOkCount ∧
      ((buildDashboard analyses).counts.audioCodec.map Prod.snd).sum =
        (buildDashboard analyses).totals.analyzedOkCount ∧
      ((buildDashboard analyses).counts.resolution.map Prod.snd).sum =
        (buildDashboard analyses).totals.analyzedOkCount) ∧
    normalizeKey none = "(unknown)" ∧
    normalizeKey (some "") = "(unknown)" ∧
    normalizeKey (some "   ") = "(unknown)" := by
  refine ⟨⟨?_, ?_, ?_, ?_, ?_⟩, rfl, rfl, by decide⟩ <;>
    simp only [buildDashboard] <;> exact countBy_sum _ _

/-! ## C8 — unconfigured store degrades to neutral results -/

/-- C8: with no pool configured every store operation returns its neutral
result instead of throwing: `upsert` reports zero counts and leaves no store,
batch lookup and distinct-value enumeration return empty lists, paged search
returns an empty page with total 0, and the store-backed dashboard is the
all-zero/empty shape. -/
theorem C8_no_pool_neutral :
    (∀ (now : String) (l : List AnalysisRecord),
      upsertAnalyses none now l = (none, { attempted := 0, stored := 0 })) ∧
    (∀ ps : List String, getAnalysesByPaths none ps = []) ∧
    (getSearchOptions none =
      { kind := [], containerFormat := [], videoCodec := [], audioCodec := [],
        resolution := [] }) ∧
    (∀ (mx : Option ℚ) (f : SearchFilters) (pre : String) (lim off : Option ℚ),
      searchAnalysesPaged mx none f pre lim off =
        { items := [], total := 0, limit := 0, offset := 0 }) ∧
    (∀ pre : String, getDashboardFromDb none pre = emptyDbDashboard) ∧
    emptyDbDashboard.totals.analyzedOkCount = 0 ∧
    emptyDbDashboard.counts.kind = [] := by
  exact ⟨fun _ _ => rfl, fun _ => rfl, rfl, fun _ _ _ _ _ => rfl, fun _ => rfl, rfl, rfl⟩

/-! ## C2 — upsert followed by point lookup round-trips the record -/

theorem filter_upsertRow_ne (st : Store) (r : DbRow) (p : String) (hp : p ≠ r.path) :
    (upsertRow st r).filter (fun x => x.path = p) =
      st.filter (fun x => x.path = p) := by
  unfold upsertRow
  by_cases hany : st.any (fun x => x.path = r.path) = true
  · rw [if_pos hany]
    clear hany
    induction st with
    | nil => rfl
    | cons y t ih =>
      simp only [List.map_cons, List.filter_cons]
      by_cases hy : y.path = r.path
      · rw [if_pos hy]
        have h1 : (decide (r.path = p)) = false :=
          decide_eq_false (fun he => hp he.symm)
        have h2 : (decide (y.path = p)) = false :=
          decide_eq_false (fun he => hp (hy ▸ he).symm)
        rw [h1, h2, ih]
        simp
      · rw [if_neg hy, ih]
  · rw [if_neg hany, List.filter_append]
    have hlast : [r].filter (fun x => x.path = p) = [] := by
      have h1 : (decide (r.path = p)) = false :=
        decide_eq_false (fun he => hp he.symm)
      simp [List.filter_cons, h1]
    rw [hlast, List.append_nil]

theorem filter_upsertRow_self (st : Store) (r : DbRow)
    (hnd : (st.map (·.path)).Nodup) :
    (upsertRow st r).filter (fun x => x.path = r.path) = [r] := by
  unfold upsertRow
  by_cases hany : st.any (fun x => x.path = r.path) = true
  · rw [if_pos hany]
    induction st with
    | nil => simp at hany
    | cons y t ih =>
      rw [List.map_cons] at hnd
      rcases List.nodup_cons.mp hnd with ⟨hyp, hnt⟩
      rw [List.map_cons, List.filter_cons]
      by_cases hy : y.path = r.path
      · rw [if_pos hy]
        have hr : (decide (r.path = r.path)) = true := by simp
        rw [hr, if_pos rfl]
        have htail : (t.map (fun x => if x.path = r.path then r else x)).filter
            (fun x => x.path = r.path) = [] := by
          rw [List.filter_eq_nil_iff]
          intro z hz
          rcases List.mem_map.mp hz with ⟨w, hw, hwe⟩
          have hwp : w.path ≠ r.path := by
            intro he
            apply hyp
            rw [hy, ← he]
            exact List.mem_map.mpr ⟨w, hw, rfl⟩
          rw [if_neg hwp] at hwe
          subst hwe
          simp [hwp]
        rw [htail]
      · have hyf : (decide (y.path = r.path)) = false := by simp [hy]
        rw [if_neg hy, hyf]
        simp only [Bool.false_eq_true, if_false]
        have hany2 : t.any (fun x => x.path = r.path) = true := by
          rcases List.any_eq_true.mp hany with ⟨z, hz, hze⟩
          rcases List.mem_cons.mp hz with h | h
          · subst h
            exact absurd (of_decide_eq_true hze) hy
          · exact List.any_eq_true.mpr ⟨z, h, hze⟩
        exact ih hnt hany2
  · rw [if_neg hany, List.filter_append]
    have h1 : st.filter (fun x => x.path = r.path) = [] := by
      rw [List.filter_eq_nil_iff]
      intro a ha
      have h3 := List.any_eq_false.mp ((Bool.not_eq_true _).mp hany) a ha
      simpa using h3
    rw [h1]
    simp

theorem upsertRow_paths_nodup (st : Store) (r : DbRow)
    (hnd : (st.map (·.path)).Nodup) :
    ((upsertRow st r).map (·.path)).Nodup := by
  unfold upsertRow
  by_cases hany : st.any (fun x => x.path = r.path) = true
  · rw [if_pos hany, List.map_map]
    have : st.map ((·.path) ∘ fun x => if x.path = r.path then r else x) =
        st.map (·.path) := by
      refine List.map_congr_left (fun x _ => ?_)
      by_cases hx : x.path = r.path
      · simp [hx]
      · simp [hx]
    rw [this]
    exact hnd
  · rw [if_neg hany, List.map_append]
    have hout : r.path ∉ st.map (·.path) := by
      intro hmem
      rcases List.mem_map.mp hmem with ⟨w, hw, hwe⟩
      have h3 := List.any_eq_false.mp ((Bool.not_eq_true _).mp hany) w hw
      simp [hwe] at h3
    simp only [List.nodup_append, List.map_cons, List.map_nil]
    exact ⟨hnd, List.nodup_singleton _, by
      intro a ha hb
      rw [List.mem_singleton] at hb
      subst hb
      exact hout ha⟩

theorem foldl_upsert_paths_nodup (l : List AnalysisRecord) (now : String) (st : Store)
    (hnd : (st.map (·.path)).Nodup) :
    (((l.foldl (fun s a => upsertRow s (toRow now a)) st)).map (·.path)).Nodup := by
  induction l generalizing st with
  | nil => exact hnd
  | cons a t ih =>
    rw [List.foldl_cons]
    exact ih _ (upsertRow_paths_nodup st (toRow now a) hnd)

theorem filter_foldl_upsert_no_path (l : List AnalysisRecord) (now : String) (st : Store)
    (p : String) (h : ∀ a ∈ l, a.path ≠ p) :
    ((l.foldl (fun s a => upsertRow s (toRow now a)) st)).filter (fun x => x.path = p) =
      st.filter (fun x => x.path = p) := by
  induction l generalizing st with
  | nil => rfl
  | cons a t ih =>
    rw [List.foldl_cons, ih _ (fun b hb => h b (by simp [hb]))]
    exact filter_upsertRow_ne st (toRow now a) p
      (fun he => h a (by simp) (by simp [toRow] at he; exact he.symm))

/-- C2: for every prior store with unique paths, upserting a batch in which
`r` is the last record carrying its (non-empty) path and then looking that
path up returns exactly the blob `r` — insert and full replace are
indistinguishable in the retrieved record. -/
theorem C2_upsert_roundtrip (st : Store) (now : String)
    (l₁ l₂ : List AnalysisRecord) (r : AnalysisRecord)
    (hnd : (st.map (·.path)).Nodup) (hp : r.path ≠ "")
    (hlast : ∀ x ∈ l₂, x.path ≠ r.path) :
    getAnalysesByPaths (upsertAnalyses (some st) now (l₁ ++ r :: l₂)).1 [r.path] = [r] := by
  have hrows : (l₁ ++ r :: l₂).filter (fun a => a.path ≠ "") =
      l₁.filter (fun a => a.path ≠ "") ++ r :: l₂.filter (fun a => a.path ≠ "") := by
    rw [List.filter_append, List.filter_cons, if_pos (by simpa using hp)]
  have hne : (l₁.filter (fun a => a.path ≠ "") ++
      r :: l₂.filter (fun a => a.path ≠ "")).isEmpty = false := by
    cases l₁.filter (fun a => a.path ≠ "") <;> rfl
  simp only [upsertAnalyses]
  rw [hrows, hne]
  simp only [Bool.false_eq_true, if_false]
  unfold getAnalysesByPaths
  have hfl : [r.path].filter (fun p => p ≠ "") = [r.path] := by simp [hp]
  rw [hfl]
  simp only [List.isEmpty_cons, Bool.false_eq_true, if_false]
  rw [List.foldl_append, List.foldl_cons]
  set st₁ := (l₁.filter (fun a => a.path ≠ "")).foldl
    (fun s a => upsertRow s (toRow now a)) st with hst₁
  have hnd₁ : (st₁.map (·.path)).Nodup :=
    foldl_upsert_paths_nodup _ now st hnd
  have hfc : ∀ tl : Store, tl.filter (fun x => x.path ∈ [r.path]) =
      tl.filter (fun x => x.path = r.path) := by
    intro tl
    refine List.filter_congr (fun x _ => ?_)
    simp
  rw [hfc]
  rw [filter_foldl_upsert_no_path _ now _ r.path
    (fun x hx => hlast x (List.mem_of_mem_filter hx))]
  have hself := filter_upsertRow_self st₁ (toRow now r) hnd₁
  have hpath : (toRow now r).path = r.path := rfl
  rw [hpath] at hself
  rw [hself]
  rfl

/-- A concrete ok record for `trips/a.mp4`. -/
def recNew : AnalysisRecord :=
  { path := "trips/a.mp4", name := some "a.mp4", kind := some "video",
    sizeBytes := some 1024, modifiedAt := some "2024-02-02T00:00:00.000Z",
    container := some { formatName := some "mp4", formatLongName := some "MP4" },
    video := some { codec := some "h264", codecLongName := some "H.264",
                    width := some 1920, height := some 1080,
                    pixelFormat := some "yuv420p", frameRate := some "30/1" },
    audio := some { codec := some "aac", codecLongName := some "AAC",
                    sampleRate := some 48000, channels := some 2 },
    durationSec := some 10, bitRate := some 1000000,
    rawStreamCount := some 2, error := none }

/-- An older record stored under the same path. -/
def recOld : AnalysisRecord :=
  { path := "trips/a.mp4", name := some "a.mp4", kind := some "unknown",
    sizeBytes := some 7, modifiedAt := some "2024-01-01T00:00:00.000Z",
    error := some "ffprobe exited with code 1:" }

theorem C2_witness :
    (([toRow "t0" recOld] : Store).map (·.path)).Nodup ∧
    recNew.path ≠ "" ∧
    getAnalysesByPaths
      (upsertAnalyses (some [toRow "t0" recOld]) "t1" [recNew]).1
      [recNew.path] = [recNew] := by
  refine ⟨by simp, by decide, ?_⟩
  have h := C2_upsert_roundtrip [toRow "t0" recOld] "t1" [] [] recNew
    (by simp) (by decide) (by simp)
  simpa using h

/-! ## C6 — comparator partitions its field set -/

/-- The first record's normalized value for a field (`values[0]`). -/
def firstVal (rs : List AnalysisRecord) (f : String) : Option CVal :=
  (rs.map (fun a => normVal a f)).headD none

/-- Whether every record agrees with the first on a field (`values.every`). -/
def allB (rs : List AnalysisRecord) (f : String) : Bool :=
  (rs.map (fun a => normVal a f)).all (fun v => v = firstVal rs f)

theorem allB_iff (rs : List AnalysisRecord) (f : String) :
    allB rs f = true ↔ ∀ a ∈ rs, ∀ b ∈ rs, normVal a f = normVal b f := by
  cases rs with
  | nil => simp [allB]
  | cons a t =>
    simp only [allB, firstVal, List.map_cons, List.headD_cons, List.all_cons,
      Bool.and_eq_true, List.all_eq_true, decide_eq_true_eq]
    constructor
    · rintro ⟨-, h2⟩ x hx y hy
      have hval : ∀ z ∈ a :: t, normVal z f = normVal a f := by
        intro z hz
        rcases List.mem_cons.mp hz with rfl | hz
        · rfl
        · exact h2 _ (List.mem_map.mpr ⟨z, hz, rfl⟩)
      rw [hval x hx, hval y hy]
    · intro h
      refine ⟨trivial, fun v hv => ?_⟩
      rcases List.mem_map.mp hv with ⟨b, hb, rfl⟩
      exact h b (List.mem_cons_of_mem a hb) a (List.mem_cons_self a t)

theorem allB_two (r₁ r₂ : AnalysisRecord) (f : String) :
    allB [r₁, r₂] f = true ↔ normVal r₂ f = normVal r₁ f := by
  simp [allB, firstVal]

/-- Structural characterization of the comparator's field loop: similarities
are the fields on which all records agree, in field order, paired with the
first record's normalized value; differences are the remaining fields paired
with the per-record `{path, value}` lists. -/
theorem comparePass_eq (rs : List AnalysisRecord) (L : List String) :
    (comparePass rs L).1 =
      (L.filter (fun f => allB rs f)).map (fun f => (f, firstVal rs f)) ∧
    (comparePass rs L).2 =
      (L.filter (fun f => !(allB rs f))).map
        (fun f => (f, rs.map (fun a => (a.path, normVal a f)))) := by
  induction L with
  | nil => exact ⟨rfl, rfl⟩
  | cons g gs ih =>
    simp only [comparePass]
    by_cases hall : allB rs g = true
    · have hcond : ((rs.map (fun a => normVal a g)).all
          (fun v => v = (rs.map (fun a => normVal a g)).headD none)) = true := hall
      rw [if_pos hcond]
      constructor
      · simp only [List.filter_cons, hall, if_true, List.map_cons, ih.1]
        rfl
      · simp only [List.filter_cons, hall, Bool.not_true, Bool.false_eq_true,
          if_false, ih.2]
    · have hcond : ¬(((rs.map (fun a => normVal a g)).all
          (fun v => v = (rs.map (fun a => normVal a g)).headD none)) = true) := hall
      rw [if_neg hcond]
      have hfalse : allB rs g = false := by
        rw [Bool.eq_false_iff]
        exact hall
      constructor
      · simp only [List.filter_cons, hfalse, Bool.false_eq_true, if_false, ih.1]
      · simp only [List.filter_cons, hfalse, Bool.not_false, if_true,
          List.map_cons, ih.2]

/-- A record equal to `r` except for its path has the same normalized value on
every comparison field (none of the eleven fields reads `path`). -/
theorem normVal_path_update (r : AnalysisRecord) (q : String) (f : String) :
    normVal { r with path := q } f = normVal r f := rfl

/-- C6 counterexample: the fixed comparison field set has eleven fields, not
ten — two identical ok records put all eleven (not ten) fields into
`similarities`. -/
theorem C6_counterexample :
    compareFields.length = 11 ∧
    ¬((compareAnalyses [recNew, { recNew with path := "trips/b.mp4" }]).similarities.length
        = 10) := by
  constructor
  · rfl
  · intro h
    have h11 : (compareAnalyses
        [recNew, { recNew with path := "trips/b.mp4" }]).similarities.length = 11 := by
      decide
    rw [h11] at h
    exact absurd h (by decide)

/-- C6 (amended): the comparator normalizes `undefined`/empty-string values to
null and partitions its fixed set of eleven comparison fields: a field lands
in `similarities` with the shared normalized value exactly when all records
agree on it, otherwise in `differences` as `{path, value}` pairs in input
order; two identical ok records (path aside) put all eleven fields into
`similarities`, and changing exactly one field (`video.width`) moves only
that field to `differences` with both values present. -/
theorem C6_comparator :
    (∀ rs : List AnalysisRecord, 2 ≤ rs.length →
      (∀ (f : String) (v : Option CVal),
        ((f, v) ∈ (compareAnalyses rs).similarities ↔
          f ∈ compareFields ∧ ∀ a ∈ rs, normVal a f = v)) ∧
      (∀ (f : String) (ps : List (String × Option CVal)),
        ((f, ps) ∈ (compareAnalyses rs).differences ↔
          f ∈ compareFields ∧
          ¬(∀ a ∈ rs, ∀ b ∈ rs, normVal a f = normVal b f) ∧
          ps = rs.map (fun a => (a.path, normVal a f))))) ∧
    compareFields.length = 11 ∧
    normalizeForCompare (some (.s "")) = none ∧
    normalizeForCompare none = none ∧
    (∀ (r : AnalysisRecord) (q : String),
      (compareAnalyses [r, { r with path := q }]).differences = [] ∧
      (compareAnalyses [r, { r with path := q }]).similarities.length = 11) ∧
    (∀ r₁ r₂ : AnalysisRecord,
      (∀ f ∈ compareFields, f ≠ "video.width" → normVal r₁ f = normVal r₂ f) →
      normVal r₁ "video.width" ≠ normVal r₂ "video.width" →
      (compareAnalyses [r₁, r₂]).differences =
        [("video.width",
          [(r₁.path, normVal r₁ "video.width"), (r₂.path, normVal r₂ "video.width")])] ∧
      (compareAnalyses [r₁, r₂]).similarities.length = 10) := by
  have hsim := fun rs => (comparePass_eq rs compareFields).1
  have hdif := fun rs => (comparePass_eq rs compareFields).2
  refine ⟨?_, rfl, rfl, rfl, ?_, ?_⟩
  · intro rs hlen
    have hne : rs ≠ [] := by
      intro h
      rw [h] at hlen
      simp at hlen
    obtain ⟨a₀, t₀, rfl⟩ := List.exists_cons_of_ne_nil hne
    constructor
    · intro f v
      show (f, v) ∈ (comparePass (a₀ :: t₀) compareFields).1 ↔ _
      rw [hsim]
      rw [List.mem_map]
      constructor
      · rintro ⟨g, hg, he⟩
        rcases List.mem_filter.mp hg with ⟨hgL, hgall⟩
        injection he with he1 he2
        subst he1
        refine ⟨hgL, ?_⟩
        intro a ha
        have h9 := (allB_iff _ g).mp hgall a ha a₀ (List.mem_cons_self a₀ t₀)
        rw [h9, ← he2]
        rfl
      · rintro ⟨hfL, hall⟩
        refine ⟨f, List.mem_filter.mpr ⟨hfL, ?_⟩, ?_⟩
        · rw [allB_iff]
          intro a ha b hb
          rw [hall a ha, hall b hb]
        · have h0 : firstVal (a₀ :: t₀) f = v := by
            unfold firstVal
            simp only [List.map_cons, List.headD_cons]
            exact hall a₀ (List.mem_cons_self a₀ t₀)
          rw [h0]
    · intro f ps
      show (f, ps) ∈ (comparePass (a₀ :: t₀) compareFields).2 ↔ _
      rw [hdif]
      rw [List.mem_map]
      constructor
      · rintro ⟨g, hg, he⟩
        rcases List.mem_filter.mp hg with ⟨hgL, hgnall⟩
        injection he with he1 he2
        subst he1
        refine ⟨hgL, ?_, he2.symm⟩
        intro hcontra
        have hfalse : allB (a₀ :: t₀) g = false := by simpa using hgnall
        exact absurd ((allB_iff _ g).mpr hcontra) (by simp [hfalse])
      · rintro ⟨hfL, hnall, hps⟩
        refine ⟨f, List.mem_filter.mpr ⟨hfL, ?_⟩, by rw [hps]⟩
        rw [Bool.not_eq_true']
        rw [Bool.eq_false_iff]
        intro hT
        exact hnall ((allB_iff _ f).mp hT)
  · intro r q
    have hallf : ∀ f ∈ compareFields, allB [r, { r with path := q }] f = true := by
      intro f _
      rw [allB_two]
      exact normVal_path_update r q f
    have hfilter : compareFields.filter
        (fun f => allB [r, { r with path := q }] f) = compareFields :=
      List.filter_eq_self.mpr hallf
    have hfilter2 : compareFields.filter
        (fun f => !(allB [r, { r with path := q }] f)) = [] := by
      rw [List.filter_eq_nil_iff]
      intro f hf
      simp [hallf f hf]
    constructor
    · show (comparePass _ compareFields).2 = []
      rw [hdif, hfilter2]
      try rfl
    · show (comparePass _ compareFields).1.length = 11
      rw [hsim, List.length_map, hfilter]
      try rfl
  · intro r₁ r₂ hsame hdiff
    have hT : ∀ f ∈ compareFields, f ≠ "video.width" →
        allB [r₁, r₂] f = true := by
      intro f hf hfw
      rw [allB_two]
      exact (hsame f hf hfw).symm
    have hF : allB [r₁, r₂] "video.width" = false := by
      rw [Bool.eq_false_iff]
      intro hT2
      exact hdiff ((allB_two _ _ _).mp hT2).symm
    have e1 := hT "kind" (by simp [compareFields]) (by decide)
    have e2 := hT "sizeBytes" (by simp [compareFields]) (by decide)
    have e3 := hT "container.formatName" (by simp [compareFields]) (by decide)
    have e4 := hT "video.codec" (by simp [compareFields]) (by decide)
    have e5 := hT "video.height" (by simp [compareFields]) (by decide)
    have e6 := hT "audio.codec" (by simp [compareFields]) (by decide)
    have e7 := hT "audio.sampleRate" (by simp [compareFields]) (by decide)
    have e8 := hT "audio.channels" (by simp [compareFields]) (by decide)
    have e9 := hT "durationSec" (by simp [compareFields]) (by decide)
    have e10 := hT "bitRate" (by simp [compareFields]) (by decide)
    constructor
    · show (comparePass _ compareFields).2 = _
      rw [hdif]
      simp only [compareFields, List.filter_cons, List.filter_nil, e1, e2, e3,
        e4, e5, e6, e7, e8, e9, e10, hF, Bool.not_true, Bool.not_false,
        Bool.false_eq_true, if_false, if_true, List.map_cons, List.map_nil]
      try rfl
    · show (comparePass _ compareFields).1.length = 10
      rw [hsim, List.length_map]
      simp only [compareFields, List.filter_cons, List.filter_nil, e1, e2, e3,
        e4, e5, e6, e7, e8, e9, e10, hF, Bool.false_eq_true, if_false, if_true]
      try rfl

/-- The video sub-object of `recWide`. -/
def vidWide : VideoInfo :=
  { codec := some "h264", codecLongName := some "H.264",
    width := some 3840, height := some 1080,
    pixelFormat := some "yuv420p", frameRate := some "30/1" }

/-- `recNew` with a different path and a doubled width. -/
def recWide : AnalysisRecord :=
  { recNew with path := "trips/wide.mp4", video := some vidWide }

theorem C6_witness :
    2 ≤ ([recNew, { recNew with path := "trips/b.mp4" }] : List AnalysisRecord).length ∧
    ("kind", some (CVal.s "video")) ∈
      (compareAnalyses [recNew, { recNew with path := "trips/b.mp4" }]).similarities ∧
    (compareAnalyses [recNew, { recNew with path := "trips/b.mp4" }]).differences = [] ∧
    (compareAnalyses [recNew, recWide]).differences =
      [("video.width",
        [("trips/a.mp4", some (CVal.q 1920)), ("trips/wide.mp4", some (CVal.q 3840))])] := by
  refine ⟨by decide, ?_, ?_, ?_⟩
  · exact ((C6_comparator.1 _ (by decide)).1 "kind" (some (CVal.s "video"))).mpr
      ⟨by simp [compareFields], by decide⟩
  · exact (C6_comparator.2.2.2.2.1 recNew "trips/b.mp4").1
  · have h := (C6_comparator.2.2.2.2.2 recNew recWide (by decide) (by decide)).1
    rw [h]
    rfl

/-! ## C7 — a filterless search returns empty without touching the tree -/

/-- C7: when the name filter is empty (after trimming) and no metadata filter
is set, the search route returns `{results: [], total: 0}` — and the response
is identical to the response over an empty tree with no store, so the file
tree is never consulted, regardless of scope. -/
theorem C7_empty_search (env : ServerEnv) (f : SearchFilters)
    (limitB offsetB : Option ℚ)
    (hname : jsTrim f.name = "") (hk : f.kind = "") (hc : f.container = "")
    (hv : f.videoCodec = "") (ha : f.audioCodec = "") (hr : f.resolution = "") :
    searchHandler env f limitB offsetB =
      searchHandler { env with tree := [], pool := none } f limitB offsetB ∧
    (searchHandler env f limitB offsetB).results = [] ∧
    (searchHandler env f limitB offsetB).total = 0 := by
  have h0 : jsToLower "" = "" := rfl
  refine ⟨?_, ?_, ?_⟩ <;>
    simp [searchHandler, hname, hk, hc, hv, ha, hr, h0]

/-- A populated environment for the witness: two files in the tree and one
stored analysis. -/
def envSearch : ServerEnv :=
  { tree := ["trips/a.mp4", "music/b.mp3"]
    pool := some [toRow "t0" recNew]
    maxRaw := none
    chunkRaw := none }

theorem C7_witness :
    jsTrim ("" : String) = "" ∧
    (searchHandler envSearch { scope := "all" } none none).results = [] ∧
    (searchHandler envSearch { scope := "all" } none none).total = 0 := by
  refine ⟨rfl, ?_, ?_⟩
  · exact (C7_empty_search envSearch { scope := "all" } none none
      rfl rfl rfl rfl rfl rfl).2.1
  · exact (C7_empty_search envSearch { scope := "all" } none none
      rfl rfl rfl rfl rfl rfl).2.2

/-! ## C3 — store-backed aggregation vs the in-memory aggregator -/

theorem jsSum_eq (l : List AnalysisRecord) (g : AnalysisRecord → Option ℚ) :
    jsSum l g = (l.map (fun a => (g a).getD 0)).sum := by
  have H : ∀ (m : List AnalysisRecord) (t : ℚ),
      m.foldl (fun total a => total + (g a).getD 0) t =
        t + (m.map (fun a => (g a).getD 0)).sum := by
    intro m
    induction m with
    | nil => intro t; simp
    | cons a r ih =>
      intro t
      rw [List.foldl_cons, ih, List.map_cons, List.sum_cons]
      ring
  have h0 := H l 0
  rw [zero_add] at h0
  exact h0

theorem sqlSum_case (l : List AnalysisRecord) (p : AnalysisRecord → Bool)
    (g : AnalysisRecord → Option ℚ) :
    sqlSum (l.map (fun a => if p a then g a else some 0)) = jsSum (l.filter p) g := by
  rw [jsSum_eq]
  unfold sqlSum
  induction l with
  | nil => rfl
  | cons a t ih =>
    have ih2 : (List.filterMap (fun a => if p a = true then g a else some 0) t).sum =
        (List.map (fun a => (g a).getD 0) (List.filter p t)).sum := by
      have h3 := ih
      simp only [List.filterMap_map, Function.comp_def, id] at h3
      exact h3
    simp only [List.map_cons, List.filter_cons]
    by_cases hp : p a
    · cases hga : g a with
      | none => simp [hp, hga, List.filterMap_cons, ih2]
      | some v => simp [hp, hga, List.filterMap_cons, ih2]
    · simp [hp, List.filterMap_cons, ih2]

theorem fold_skip {β : Type} (step : β → Option ℚ → β)
    (hstep : ∀ acc, step acc none = acc) (l : List AnalysisRecord)
    (p : AnalysisRecord → Bool) (g : AnalysisRecord → Option ℚ) :
    ∀ acc : β, (l.map (fun a => if p a then g a else none)).foldl step acc =
      ((l.filter p).map g).foldl step acc := by
  induction l with
  | nil => intro acc; rfl
  | cons a t ih =>
    intro acc
    simp only [List.map_cons, List.filter_cons, List.foldl_cons]
    by_cases hp : p a
    · simp only [hp, if_true, List.map_cons, List.foldl_cons]
      exact ih _
    · simp only [hp, Bool.false_eq_true, if_false, hstep, ih]

theorem jsMM_fold (g : AnalysisRecord → Option ℚ) (m : List AnalysisRecord)
    (h : ∀ a ∈ m, (g a).isSome = true) :
    ∀ mn mx : Option ℚ,
      m.foldl (jsMMStep g) (mn, mx) =
        ((m.map g).foldl sqlMinStep mn, (m.map g).foldl sqlMaxStep mx) := by
  induction m with
  | nil => intro mn mx; rfl
  | cons a t ih =>
    intro mn mx
    obtain ⟨v, hv⟩ := Option.isSome_iff_exists.mp (h a (List.mem_cons_self a t))
    have hstep : jsMMStep g (mn, mx) a = (sqlMinStep mn (g a), sqlMaxStep mx (g a)) := by
      unfold jsMMStep sqlMinStep sqlMaxStep
      rw [hv]
      cases mn with
      | none =>
        cases mx with
        | none => rfl
        | some mxv =>
          simp only [Option.getD_some]
          rcases lt_or_ge mxv v with hlt | hge
          · rw [if_pos hlt, max_eq_right (le_of_lt hlt)]
          · rw [if_neg (not_lt.mpr hge), max_eq_left hge]
      | some mnv =>
        cases mx with
        | none =>
          simp only [Option.getD_some]
          rcases lt_or_ge v mnv with hlt | hge
          · rw [if_pos hlt, min_eq_right (le_of_lt hlt)]
          · rw [if_neg (not_lt.mpr hge), min_eq_left hge]
        | some mxv =>
          simp only [Option.getD_some]
          congr 1
          · rcases lt_or_ge v mnv with hlt | hge
            · rw [if_pos hlt, min_eq_right (le_of_lt hlt)]
            · rw [if_neg (not_lt.mpr hge), min_eq_left hge]
          · rcases lt_or_ge mxv v with hlt | hge
            · rw [if_pos hlt, max_eq_right (le_of_lt hlt)]
            · rw [if_neg (not_lt.mpr hge), max_eq_left hge]
    rw [List.foldl_cons, hstep, List.map_cons, List.foldl_cons, List.foldl_cons]
    exact ih (fun b hb => h b (List.mem_cons_of_mem a hb)) _ _

theorem jsMinMax_eq_sql (m : List AnalysisRecord) (g : AnalysisRecord → Option ℚ)
    (h : ∀ a ∈ m, (g a).isSome = true) :
    jsMinMax m g = (sqlMin (m.map g), sqlMax (m.map g)) := by
  unfold jsMinMax sqlMin sqlMax
  exact jsMM_fold g m h none none

/-- The cleanliness condition the amended C3 assumes of each in-scope ok
record: every one of the five dimension keys is present and already in
normalized form (non-null, trimmed, non-blank; width/height positive so the
column-derived `WxH` string equals the in-memory resolution key), and
`bitRate`/`durationSec` are non-null (a JS `null` there enters the in-memory
min/max as `Number(null) = 0`, while SQL `MIN`/`MAX` ignore the NULL). -/
def cleanOkRecord (a : AnalysisRecord) : Prop :=
  a.kind = some (normalizeKey a.kind) ∧
  a.container.bind (·.formatName) =
    some (normalizeKey (a.container.bind (·.formatName))) ∧
  a.video.bind (·.codec) = some (normalizeKey (a.video.bind (·.codec))) ∧
  a.audio.bind (·.codec) = some (normalizeKey (a.audio.bind (·.codec))) ∧
  (match a.video.bind (·.width), a.video.bind (·.height) with
   | some w, some h => some (resKeyStr w h)
   | _, _ => none) = some (normalizeKey (resolutionKey a)) ∧
  a.bitRate.isSome = true ∧ a.durationSec.isSome = true

/-- C3 (amended): over a store whose rows are the denormalized images of a
record list (the write path of `upsertAnalyses`), and assuming each in-scope
record has no empty-string error message and each in-scope ok record is clean
(`cleanOkRecord`), the store-backed dashboard agrees with `buildDashboard`
over the in-scope records on every total except `selectedCount` (which the
store-backed version fixes at `0`), and its five dimensions shared with the
in-memory aggregator carry identical `{key, count}` lists.  (Without the
cleanliness assumptions the two disagree: the store-backed version drops
NULL/blank keys where the in-memory one buckets them under `"(unknown)"`, and
SQL `MIN`/`MAX` ignore NULLs which `Number(null) = 0` does not; the
store-backed output additionally carries four dimensions `buildDashboard`
does not compute.) -/
theorem C3_store_aggregation (records : List AnalysisRecord) (scopePrefix now : String)
    (H1 : ∀ a ∈ records.filter (fun a => strPrefix (jsTrim scopePrefix) a.path),
      a.error ≠ some "")
    (H2 : ∀ a ∈ records.filter (fun a => strPrefix (jsTrim scopePrefix) a.path),
      memOk a = true → cleanOkRecord a) :
    (getDashboardFromDb (some (records.map (toRow now))) scopePrefix).totals =
      { (buildDashboard
          (records.filter (fun a => strPrefix (jsTrim scopePrefix) a.path))).totals
          with selectedCount := 0 } ∧
    (getDashboardFromDb (some (records.map (toRow now))) scopePrefix).counts.kind =
      (buildDashboard
        (records.filter (fun a => strPrefix (jsTrim scopePrefix) a.path))).counts.kind ∧
    (getDashboardFromDb (some (records.map (toRow now))) scopePrefix).counts.containerFormat =
      (buildDashboard
        (records.filter (fun a => strPrefix (jsTrim scopePrefix) a.path))).counts.containerFormat ∧
    (getDashboardFromDb (some (records.map (toRow now))) scopePrefix).counts.videoCodec =
      (buildDashboard
        (records.filter (fun a => strPrefix (jsTrim scopePrefix) a.path))).counts.videoCodec ∧
    (getDashboardFromDb (some (records.map (toRow now))) scopePrefix).counts.audioCodec =
      (buildDashboard
        (records.filter (fun a => strPrefix (jsTrim scopePrefix) a.path))).counts.audioCodec ∧
    (getDashboardFromDb (some (records.map (toRow now))) scopePrefix).counts.resolution =
      (buildDashboard
        (records.filter (fun a => strPrefix (jsTrim scopePrefix) a.path))).counts.resolution := by
  have hmemok : ∀ a ∈ records.filter (fun a => strPrefix (jsTrim scopePrefix) a.path),
      (dbOkRow (toRow now a)) = memOk a := by
    intro a ha
    cases he : a.error with
    | none => simp [dbOkRow, toRow, memOk, errTruthy, he]
    | some s =>
      have hs : s ≠ "" := fun h => H1 a ha (by rw [he, h])
      simp [dbOkRow, toRow, memOk, errTruthy, he, hs]
  have hrows : (records.map (toRow now)).filter
      (fun r => strPrefix (jsTrim scopePrefix) r.path) =
      (records.filter (fun a => strPrefix (jsTrim scopePrefix) a.path)).map (toRow now) := by
    rw [List.filter_map]
    congr 1
  have hokrows : ((records.filter (fun a => strPrefix (jsTrim scopePrefix) a.path)).map
        (toRow now)).filter dbOkRow =
      ((records.filter (fun a => strPrefix (jsTrim scopePrefix) a.path)).filter
        memOk).map (toRow now) := by
    rw [List.filter_map]
    congr 1
    exact List.filter_congr hmemok
  have hO : ∀ a ∈ (records.filter
        (fun a => strPrefix (jsTrim scopePrefix) a.path)).filter memOk,
      cleanOkRecord a := by
    intro a ha
    rcases List.mem_filter.mp ha with ⟨hs, hm⟩
    exact H2 a hs (by simpa using hm)
  simp only [getDashboardFromDb, buildDashboard]
  rw [hrows, hokrows]
  simp only [List.map_map, List.countP_map, List.filterMap_map, Function.comp_def]
  constructor
  · -- totals
    have hcountok : List.countP (fun a => dbOkRow (toRow now a))
        (records.filter (fun a => strPrefix (jsTrim scopePrefix) a.path)) =
        ((records.filter (fun a => strPrefix (jsTrim scopePrefix) a.path)).filter
          memOk).length := by
      rw [List.countP_eq_length_filter]
      congr 1
      refine List.filter_congr (fun a ha => ?_)
      exact hmemok a ha
    have hcounterr : List.countP (fun a => !dbOkRow (toRow now a))
        (records.filter (fun a => strPrefix (jsTrim scopePrefix) a.path)) =
        ((records.filter (fun a => strPrefix (jsTrim scopePrefix) a.path)).filter
          (fun a => errTruthy a.error)).length := by
      rw [List.countP_eq_length_filter]
      congr 1
      refine List.filter_congr (fun a ha => ?_)
      have h4 := hmemok a ha
      rw [h4]
      simp [memOk]
    have hsize : (records.filter (fun a => strPrefix (jsTrim scopePrefix) a.path)).map
        (fun a => if dbOkRow (toRow now a) then (toRow now a).size_bytes else some 0) =
        (records.filter (fun a => strPrefix (jsTrim scopePrefix) a.path)).map
        (fun a => if memOk a then a.sizeBytes else some 0) := by
      refine List.map_congr_left (fun a ha => ?_)
      rw [hmemok a ha]
      rfl
    have hdur : (records.filter (fun a => strPrefix (jsTrim scopePrefix) a.path)).map
        (fun a => if dbOkRow (toRow now a) then (toRow now a).duration_sec else some 0) =
        (records.filter (fun a => strPrefix (jsTrim scopePrefix) a.path)).map
        (fun a => if memOk a then a.durationSec else some 0) := by
      refine List.map_congr_left (fun a ha => ?_)
      rw [hmemok a ha]
      rfl
    have hbrn : (records.filter (fun a => strPrefix (jsTrim scopePrefix) a.path)).map
        (fun a => if dbOkRow (toRow now a) then (toRow now a).bit_rate else none) =
        (records.filter (fun a => strPrefix (jsTrim scopePrefix) a.path)).map
        (fun a => if memOk a then a.bitRate else none) := by
      refine List.map_congr_left (fun a ha => ?_)
      rw [hmemok a ha]
      rfl
    have hdrn : (records.filter (fun a => strPrefix (jsTrim scopePrefix) a.path)).map
        (fun a => if dbOkRow (toRow now a) then (toRow now a).duration_sec else none) =
        (records.filter (fun a => strPrefix (jsTrim scopePrefix) a.path)).map
        (fun a => if memOk a then a.durationSec else none) := by
      refine List.map_congr_left (fun a ha => ?_)
      rw [hmemok a ha]
      rfl
    have hbrS : ∀ a ∈ (records.filter
          (fun a => strPrefix (jsTrim scopePrefix) a.path)).filter memOk,
        (a.bitRate).isSome = true := fun a ha => (hO a ha).2.2.2.2.2.1
    have hdrS : ∀ a ∈ (records.filter
          (fun a => strPrefix (jsTrim scopePrefix) a.path)).filter memOk,
        (a.durationSec).isSome = true := fun a ha => (hO a ha).2.2.2.2.2.2
    have hmmb := jsMinMax_eq_sql _ (fun a => a.bitRate) hbrS
    have hmmd := jsMinMax_eq_sql _ (fun a => a.durationSec) hdrS
    have hminb : sqlMin ((records.filter
          (fun a => strPrefix (jsTrim scopePrefix) a.path)).map
          (fun a => if memOk a then a.bitRate else none)) =
        (jsMinMax ((records.filter
          (fun a => strPrefix (jsTrim scopePrefix) a.path)).filter memOk)
          (fun a => a.bitRate)).1 := by
      rw [hmmb]
      unfold sqlMin
      rw [fold_skip sqlMinStep (fun _ => rfl)]
    have hmaxb : sqlMax ((records.filter
          (fun a => strPrefix (jsTrim scopePrefix) a.path)).map
          (fun a => if memOk a then a.bitRate else none)) =
        (jsMinMax ((records.filter
          (fun a => strPrefix (jsTrim scopePrefix) a.path)).filter memOk)
          (fun a => a.bitRate)).2 := by
      rw [hmmb]
      unfold sqlMax
      rw [fold_skip sqlMaxStep (fun _ => rfl)]
    have hmind : sqlMin ((records.filter
          (fun a => strPrefix (jsTrim scopePrefix) a.path)).map
          (fun a => if memOk a then a.durationSec else none)) =
        (jsMinMax ((records.filter
          (fun a => strPrefix (jsTrim scopePrefix) a.path)).filter memOk)
          (fun a => a.durationSec)).1 := by
      rw [hmmd]
      unfold sqlMin
      rw [fold_skip sqlMinStep (fun _ => rfl)]
    have hmaxd : sqlMax ((records.filter
          (fun a => strPrefix (jsTrim scopePrefix) a.path)).map
          (fun a => if memOk a then a.durationSec else none)) =
        (jsMinMax ((records.filter
          (fun a => strPrefix (jsTrim scopePrefix) a.path)).filter memOk)
          (fun a => a.durationSec)).2 := by
      rw [hmmd]
      unfold sqlMax
      rw [fold_skip sqlMaxStep (fun _ => rfl)]
    simp only [DashTotals.mk.injEq]
    refine ⟨trivial, hcountok, hcounterr, ?_, ?_, ?_, ?_, ?_, ?_⟩
    · rw [hsize, sqlSum_case]
    · rw [hdur, sqlSum_case]
    · rw [hbrn, hminb]
    · rw [hbrn, hmaxb]
    · rw [hdrn, hmind]
    · rw [hdrn, hmaxd]
  · -- the five shared dimensions
    have keyOf : ∀ (colKey : AnalysisRecord → Option String)
        (memKey : AnalysisRecord → Option String),
        (∀ a ∈ (records.filter
            (fun a => strPrefix (jsTrim scopePrefix) a.path)).filter memOk,
          colKey a = some (normalizeKey (memKey a))) →
        ((records.filter (fun a => strPrefix (jsTrim scopePrefix) a.path)).filter
          memOk).filterMap colKey =
        ((records.filter (fun a => strPrefix (jsTrim scopePrefix) a.path)).filter
          memOk).map (fun a => normalizeKey (memKey a)) := by
      intro colKey memKey h
      exact filterMap_eq_map_of_some _ _ _ h
    refine ⟨?_, ?_, ?_, ?_, ?_⟩ <;>
      simp only [countBy, sqlCountDim, jsGroup_eq_groupModel]
    · rw [keyOf (fun a => (toRow now a).kind) (fun a => a.kind)
        (fun a ha => (hO a ha).1)]
    · rw [keyOf (fun a => (toRow now a).container_format)
        (fun a => a.container.bind (·.formatName))
        (fun a ha => (hO a ha).2.1)]
    · rw [keyOf (fun a => (toRow now a).video_codec)
        (fun a => a.video.bind (·.codec))
        (fun a ha => (hO a ha).2.2.1)]
    · rw [keyOf (fun a => (toRow now a).audio_codec)
        (fun a => a.audio.bind (·.codec))
        (fun a ha => (hO a ha).2.2.2.1)]
    · rw [keyOf (fun a =>
          match (toRow now a).width, (toRow now a).height with
          | some w, some h => some (resKeyStr w h)
          | _, _ => none)
        resolutionKey
        (fun a ha => (hO a ha).2.2.2.2.1)]

instance : DecidablePred cleanOkRecord := fun a => by
  unfold cleanOkRecord
  infer_instance

/-- An ok record whose container format is null. -/
def recNoFmt : AnalysisRecord :=
  { recNew with container := some { formatName := none, formatLongName := none } }

/-- C3 counterexample: over a store holding one ok record whose container
format is null, the store-backed dashboard and `buildDashboard` disagree —
the store-backed `containerFormat` list is empty where the in-memory one has
the `"(unknown)"` bucket, and the store-backed totals fix `selectedCount` at
`0` where the in-memory totals report the record count — so the two outputs
are not "the same totals and the same per-dimension lists". -/
theorem C3_counterexample :
    (getDashboardFromDb (some [toRow "t" recNoFmt]) "").counts.containerFormat = [] ∧
    (buildDashboard [recNoFmt]).counts.containerFormat = [("(unknown)", 1)] ∧
    (getDashboardFromDb (some [toRow "t" recNoFmt]) "").totals.selectedCount = 0 ∧
    (buildDashboard [recNoFmt]).totals.selectedCount = 1 ∧
    (getDashboardFromDb (some [toRow "t" recNoFmt]) "").counts.containerFormat ≠
      (buildDashboard [recNoFmt]).counts.containerFormat ∧
    (getDashboardFromDb (some [toRow "t" recNoFmt]) "").totals ≠
      (buildDashboard [recNoFmt]).totals := by
  refine ⟨rfl, rfl, rfl, rfl, ?_, ?_⟩
  · intro h
    rw [show (getDashboardFromDb (some [toRow "t" recNoFmt]) "").counts.containerFormat
        = [] from rfl,
      show (buildDashboard [recNoFmt]).counts.containerFormat
        = [("(unknown)", 1)] from rfl] at h
    exact absurd h (by decide)
  · intro h
    have h2 := congrArg DashTotals.selectedCount h
    rw [show (getDashboardFromDb (some [toRow "t" recNoFmt]) "").totals.selectedCount
        = 0 from rfl,
      show (buildDashboard [recNoFmt]).totals.selectedCount = 1 from rfl] at h2
    exact absurd h2 (by decide)

theorem C3_witness :
    (∀ a ∈ ([recNew, recOld] : List AnalysisRecord).filter
        (fun a => strPrefix (jsTrim "trips/") a.path), a.error ≠ some "") ∧
    (∀ a ∈ ([recNew, recOld] : List AnalysisRecord).filter
        (fun a => strPrefix (jsTrim "trips/") a.path),
      memOk a = true → cleanOkRecord a) ∧
    (getDashboardFromDb (some (([recNew, recOld] : List AnalysisRecord).map
        (toRow "t"))) "trips/").counts.kind = [("video", 1)] := by
  refine ⟨by decide, by decide, ?_⟩
  have h := (C3_store_aggregation [recNew, recOld] "trips/" "t"
    (by decide) (by decide)).2.1
  rw [h]
  rfl

end MediaAnalyzer
